import Mathlib

/-!
# Gpio16BitAccessMode<TPinPackage,COLOURS_16BIT,48,42,42>

A shallow embedding of the 48 MHz / 64K colour / 42 ns GPIO access mode of
stm32plus (`lib/include/display/graphic/access/Gpio16BitAccessMode_64K_48_42_42.h`).

Every operation of the class is a sequence of externally visible events:
stores to memory-mapped GPIO registers (the `str` instructions of the inline
assembly), calls of the GPIO library (`GpioPinInitialiser::initialise`,
`GPIO_SetBits`, `GPIO_ResetBits`) and calls of `MillisecondTimer::delay`.
An operation is modelled as the list of events it produces, in program order.

`writeMultiData` contains a loop and a computed jump; its main assembly block
is modelled as a program for a small Thumb machine (instruction list, program
counter, the two working registers and the carry flag) that is run with fuel.
-/

namespace Stm32plus

/-! ## Events -/

/-- Modelled from the spec: the direction argument of the GPIO configuration
primitive (`mode=output`). `Gpio::OUTPUT` is the only value used by this file;
the declaration of the enumeration lives elsewhere in the library. -/
inductive GpioModeType
  | OUTPUT
  | INPUT
  deriving DecidableEq, Repr

/-- One externally visible action of the driver. -/
inductive Event
  /-- `str val, [addr]`: a 32-bit store to a memory-mapped register. -/
  | store (addr val : Nat)
  /-- `GpioPinInitialiser::initialise(port, pins, mode)`. -/
  | initialise (port pins : Nat) (mode : GpioModeType)
  /-- `GPIO_SetBits(port, pins)`. -/
  | setBits (port pins : Nat)
  /-- `GPIO_ResetBits(port, pins)`. -/
  | resetBits (port pins : Nat)
  /-- `MillisecondTimer::delay(ms)`. -/
  | delay (ms : Nat)
  deriving DecidableEq, Repr

/-! ## Compile-time parameters -/

/-- The template parameter `TPinPackage`: the two port base addresses and the
three control pin masks. -/
structure PinPackage where
  Port_DATA : Nat
  Port_CONTROL : Nat
  Pin_RESET : Nat
  Pin_WR : Nat
  Pin_RS : Nat
  deriving DecidableEq, Repr

/-- The MCU family selected by the preprocessor (`STM32PLUS_F0`, `STM32PLUS_F1`,
`STM32PLUS_F4`); any other family is a compile error (`#error Unsupported MCU`). -/
inductive Mcu
  | F0
  | F1
  | F4
  deriving DecidableEq, Repr

/-- The values of `offsetof(GPIO_TypeDef, ·)` used by the constructor. The
declaration of `GPIO_TypeDef` comes from the vendor headers, so the offsets are
parameters. `BRR`/`BSRR` exist on F0 and F1, `BSRRH`/`BSRRL` on F4. -/
structure GPIO_TypeDef where
  ODR : Nat
  BSRR : Nat
  BRR : Nat
  BSRRL : Nat
  BSRRH : Nat
  deriving DecidableEq, Repr

/-! ## The class -/

/-- The member variables of the class. -/
structure Gpio16BitAccessMode where
  _controlSetAddress : Nat
  _controlResetAddress : Nat
  _portOutputRegister : Nat
  _wr : Nat
  _rs : Nat
  _jump : Nat
  deriving DecidableEq, Repr

namespace Gpio16BitAccessMode

/-- The constructor. Returns the constructed object and the events of the
constructor body. `_jump` is not assigned by the constructor, `jump0` is the
indeterminate value it starts with. The `uint16_t` members truncate to 16 bits,
the `uint32_t` members to 32 bits. -/
def construct (mcu : Mcu) (G : GPIO_TypeDef) (P : PinPackage) (jump0 : Nat) :
    Gpio16BitAccessMode × List Event :=
  let rs := P.Pin_RS % 2 ^ 16
  let wr := P.Pin_WR % 2 ^ 16
  let controlResetAddress :=
    match mcu with
    | Mcu.F0 => (P.Port_CONTROL + G.BRR) % 2 ^ 32
    | Mcu.F1 => (P.Port_CONTROL + G.BRR) % 2 ^ 32
    | Mcu.F4 => (P.Port_CONTROL + G.BSRRH) % 2 ^ 32
  let controlSetAddress :=
    match mcu with
    | Mcu.F0 => (P.Port_CONTROL + G.BSRR) % 2 ^ 32
    | Mcu.F1 => (P.Port_CONTROL + G.BSRR) % 2 ^ 32
    | Mcu.F4 => (P.Port_CONTROL + G.BSRRL) % 2 ^ 32
  let portOutputRegister := (P.Port_DATA + G.ODR) % 2 ^ 32
  ({ _controlSetAddress := controlSetAddress
     _controlResetAddress := controlResetAddress
     _portOutputRegister := portOutputRegister
     _wr := wr
     _rs := rs
     _jump := jump0 },
   [ Event.initialise P.Port_DATA 0xffff GpioModeType.OUTPUT,
     Event.initialise P.Port_CONTROL (P.Pin_RS ||| P.Pin_WR ||| P.Pin_RESET) GpioModeType.OUTPUT,
     Event.setBits P.Port_CONTROL P.Pin_WR ])

/-- `reset()`: hard-reset the panel. -/
def reset (P : PinPackage) (_d : Gpio16BitAccessMode) : List Event :=
  let port := P.Port_CONTROL
  [ Event.delay 10,
    Event.setBits port P.Pin_RESET,
    Event.delay 5,
    Event.resetBits port P.Pin_RESET,
    Event.delay 50,
    Event.setBits port P.Pin_RESET,
    Event.delay 50 ]

/-- `writeCommand(uint16_t command)`. The `wr` and `rs` operands are the members
`_wr` and `_rs`. -/
def writeCommand (_P : PinPackage) (d : Gpio16BitAccessMode) (command : Nat) : List Event :=
  let value := command % 2 ^ 16
  [ Event.store d._portOutputRegister value,
    Event.store d._controlResetAddress d._rs,
    Event.store d._controlResetAddress d._wr,
    Event.store d._controlSetAddress d._wr ]

/-- `writeData(uint16_t value)`. The `wr` and `rs` operands are
`TPinPackage::Pin_WR` and `TPinPackage::Pin_RS`. -/
def writeData (P : PinPackage) (d : Gpio16BitAccessMode) (value : Nat) : List Event :=
  let value := value % 2 ^ 16
  [ Event.store d._portOutputRegister value,
    Event.store d._controlSetAddress P.Pin_RS,
    Event.store d._controlResetAddress P.Pin_WR,
    Event.store d._controlSetAddress P.Pin_WR ]

/-- `writeCommand(uint16_t command, uint16_t parameter)`. -/
def writeCommandParameter (P : PinPackage) (d : Gpio16BitAccessMode)
    (command parameter : Nat) : List Event :=
  writeCommand P d command ++ writeData P d parameter

/-- `writeDataAgain(uint16_t /* value */)`: the argument is unused. -/
def writeDataAgain (P : PinPackage) (d : Gpio16BitAccessMode) (_value : Nat) : List Event :=
  [ Event.store d._controlResetAddress P.Pin_WR,
    Event.store d._controlSetAddress P.Pin_WR ]

/-- `rawTransfer(buffer, numWords)`: `while(numWords--) writeData(*ptr++);`.
The memory at `buffer` is the list of its 16-bit words; reading past its end is
undefined behaviour and yields `none`. `loop` is the `while` statement. -/
def rawTransfer.loop (P : PinPackage) (d : Gpio16BitAccessMode) :
    List Nat → Nat → Option (List Event)
  | _, 0 => some []
  | [], _ + 1 => none
  | w :: ptr, numWords + 1 =>
      match rawTransfer.loop P d ptr numWords with
      | none => none
      | some rest => some (writeData P d w ++ rest)

/-- `rawTransfer(const void *buffer, uint32_t numWords)`. -/
def rawTransfer (P : PinPackage) (d : Gpio16BitAccessMode) (buffer : List Nat)
    (numWords : Nat) : Option (List Event) :=
  rawTransfer.loop P d buffer (numWords % 2 ^ 32)

end Gpio16BitAccessMode

/-! ## The main assembly block of `writeMultiData` -/

namespace Thumb

/-- The two address operands of the `str` instructions of the main block. -/
inductive AddrOperand
  | creset
  | cset
  deriving DecidableEq, Repr

/-- The instructions that occur in the main block. Branch targets and the
label of `ldr =label` are instruction indices inside the block. -/
inductive Instr
  /-- `cmp %[howmuch], #imm`. -/
  | cmp_howmuch (imm : Nat)
  /-- `blo label`: branch if carry clear (unsigned lower). -/
  | blo (label : Nat)
  /-- `bhs label`: branch if carry set (unsigned higher or same). -/
  | bhs (label : Nat)
  /-- `str %[wr], [%[base], #0]`. -/
  | str_wr (base : AddrOperand)
  /-- `sub %[howmuch], #imm`. -/
  | sub_howmuch (imm : Nat)
  /-- `ldr %[jump], =label`. -/
  | ldr_jump (label : Nat)
  /-- `lsl %[howmuch], #sh`. -/
  | lsl_howmuch (sh : Nat)
  /-- `sub %[jump], %[howmuch]`. -/
  | sub_jump_howmuch
  /-- `add %[jump], #imm`. -/
  | add_jump (imm : Nat)
  /-- `bx %[jump]`. -/
  | bx_jump
  deriving DecidableEq, Repr

/-- One `[wr] = 0; [wr] = 1` pair of `str` instructions. -/
def togglePair : List Instr :=
  [Instr.str_wr AddrOperand.creset, Instr.str_wr AddrOperand.cset]

/-- The straight-line sequence of `n` toggle pairs. -/
def togglePairs : Nat → List Instr
  | 0 => []
  | n + 1 => togglePair ++ togglePairs n

/-- Index of the label `batchloop`. -/
def batchloop : Nat := 2

/-- Index of the label `lastlot`: 2 + 80 + 3. -/
def lastlot : Nat := 85

/-- Index of the label `finished`: 85 + 5 + 78, the end of the block. -/
def finished : Nat := 168

/-- The main block (source lines 223 to 403): the entry test, the batch of 40
toggle pairs (lines 230 to 309) with its loop test, the remainder dispatch, and
the tail of 39 toggle pairs (lines 324 to 401). -/
def mainBlock : List Instr :=
  [ Instr.cmp_howmuch 40,
    Instr.blo lastlot ]
  -- batchloop:
  ++ togglePairs 40 ++
  [ Instr.sub_howmuch 40,
    Instr.cmp_howmuch 40,
    Instr.bhs batchloop,
  -- lastlot:
    Instr.ldr_jump finished,
    Instr.lsl_howmuch 2,
    Instr.sub_jump_howmuch,
    Instr.add_jump 1,
    Instr.bx_jump ]
  ++ togglePairs 39
  -- finished:

/-- The operands of the block that never change while it runs, and the address
at which the block is placed. Every instruction of the block has a 16-bit
encoding (all operands are low registers), so instruction `i` is at
`codeBase + 2 * i`. -/
structure Env where
  creset : Nat
  cset : Nat
  wr : Nat
  codeBase : Nat
  deriving DecidableEq, Repr

/-- The part of the processor state the block reads or writes. Only `cmp`
is modelled as setting the carry flag: the flags left by the other arithmetic
instructions are never tested. -/
structure Cpu where
  pc : Nat
  howmuch : Nat
  jump : Nat
  carry : Bool
  out : List Event
  deriving DecidableEq, Repr

/-- The address held by an address operand. -/
def Env.addr (env : Env) : AddrOperand → Nat
  | AddrOperand.creset => env.creset
  | AddrOperand.cset => env.cset

/-- Address of the instruction with index `i`. -/
def Env.addrOf (env : Env) (i : Nat) : Nat := env.codeBase + 2 * i

/-- Execute the instruction at `pc`. `none` is a fault: no instruction of
the block at `pc`, or a `bx` whose target is not in Thumb state or is not an
instruction boundary of the block. -/
def step (env : Env) (s : Cpu) : Option Cpu :=
  match mainBlock[s.pc]? with
  | none => none
  | some (Instr.cmp_howmuch imm) =>
      some { s with pc := s.pc + 1, carry := decide (imm ≤ s.howmuch) }
  | some (Instr.blo label) =>
      some { s with pc := if s.carry then s.pc + 1 else label }
  | some (Instr.bhs label) =>
      some { s with pc := if s.carry then label else s.pc + 1 }
  | some (Instr.str_wr base) =>
      some { s with pc := s.pc + 1, out := s.out ++ [Event.store (env.addr base) env.wr] }
  | some (Instr.sub_howmuch imm) =>
      some { s with pc := s.pc + 1, howmuch := (s.howmuch + 2 ^ 32 - imm) % 2 ^ 32 }
  | some (Instr.ldr_jump label) =>
      some { s with pc := s.pc + 1, jump := env.addrOf label % 2 ^ 32 }
  | some (Instr.lsl_howmuch sh) =>
      some { s with pc := s.pc + 1, howmuch := (s.howmuch * 2 ^ sh) % 2 ^ 32 }
  | some Instr.sub_jump_howmuch =>
      some { s with pc := s.pc + 1, jump := (s.jump + 2 ^ 32 - s.howmuch) % 2 ^ 32 }
  | some (Instr.add_jump imm) =>
      some { s with pc := s.pc + 1, jump := (s.jump + imm) % 2 ^ 32 }
  | some Instr.bx_jump =>
      if s.jump % 2 = 1 then
        let target := s.jump - 1
        if env.codeBase ≤ target ∧ (target - env.codeBase) % 2 = 0
            ∧ (target - env.codeBase) / 2 ≤ finished then
          some { s with pc := (target - env.codeBase) / 2 }
        else none
      else none

/-- Run the block until control reaches `finished`; `none` when the fuel runs
out or on a fault. -/
def run (env : Env) : Nat → Cpu → Option Cpu
  | 0, _ => none
  | fuel + 1, s =>
      if s.pc = finished then some s
      else
        match step env s with
        | none => none
        | some s' => run env fuel s'

end Thumb

namespace Gpio16BitAccessMode

/-- `writeMultiData(howMuch, value)` run with a given amount of fuel. The first
assembly block stores `value` and raises RS; the main block is then entered
with `howmuch = howMuch` and `jump = _jump`. `codeBase` is the address of the
main block. -/
def writeMultiDataFuel (fuel : Nat) (P : PinPackage) (d : Gpio16BitAccessMode)
    (codeBase howMuch value : Nat) : Option (List Event) :=
  let first :=
    [ Event.store d._portOutputRegister (value % 2 ^ 16),
      Event.store d._controlSetAddress P.Pin_RS ]
  let env : Thumb.Env :=
    { creset := d._controlResetAddress
      cset := d._controlSetAddress
      wr := P.Pin_WR
      codeBase := codeBase }
  let s0 : Thumb.Cpu :=
    { pc := 0
      howmuch := howMuch % 2 ^ 32
      jump := d._jump % 2 ^ 32
      carry := false
      out := first }
  match Thumb.run env fuel s0 with
  | none => none
  | some s => some s.out

/-- Fuel that suffices for `howMuch`: 83 instructions per batch, and at most
2 + 5 + 78 outside the loop, plus the final test. -/
def writeMultiDataSteps (howMuch : Nat) : Nat :=
  83 * ((howMuch % 2 ^ 32) / 40) + 86

/-- `writeMultiData(uint32_t howMuch, uint16_t value)`. -/
def writeMultiData (P : PinPackage) (d : Gpio16BitAccessMode)
    (codeBase howMuch value : Nat) : Option (List Event) :=
  writeMultiDataFuel (writeMultiDataSteps howMuch) P d codeBase howMuch value

end Gpio16BitAccessMode

/-! ## Specification-side definitions -/

namespace Thumb

/-- The events of `n` consecutive toggle pairs executed by the Thumb machine. -/
def Env.pulses (env : Env) : Nat → List Event
  | 0 => []
  | n + 1 => [Event.store env.creset env.wr, Event.store env.cset env.wr] ++ env.pulses n

end Thumb

namespace Gpio16BitAccessMode

/-- The write that drives the write-strobe low: the WR mask to the control
reset register. -/
def strobeLow (P : PinPackage) (d : Gpio16BitAccessMode) : Event :=
  Event.store d._controlResetAddress P.Pin_WR

/-- The write that drives the write-strobe high: the WR mask to the control
set register. -/
def strobeHigh (P : PinPackage) (d : Gpio16BitAccessMode) : Event :=
  Event.store d._controlSetAddress P.Pin_WR

/-- The naive loop `for (i = 0; i < n; i++) writeDataAgain(value);`: one
toggle pair per iteration. -/
def writeDataAgainTimes (P : PinPackage) (d : Gpio16BitAccessMode) (value : Nat) :
    Nat → List Event
  | 0 => []
  | n + 1 => writeDataAgain P d value ++ writeDataAgainTimes P d value n

/-- The specification of `writeMultiData(count, value)` in the words of the
spec: `writeData(value)` once, followed by `writeDataAgain(value)` exactly
`count - 1` times. -/
def writeMultiDataSpec (P : PinPackage) (d : Gpio16BitAccessMode) (count value : Nat) :
    List Event :=
  writeData P d value ++ writeDataAgainTimes P d value (count - 1)

/-- The specification of `rawTransfer` in the words of the spec: the
concatenation, in array order, of `writeData(w)` for the words `w`. -/
def writeDataEach (P : PinPackage) (d : Gpio16BitAccessMode) : List Nat → List Event
  | [] => []
  | w :: ws => writeData P d w ++ writeDataEach P d ws

/-- Scan for pulses: `armed` tells that the previous event was `lo` and has
not been used by a pulse yet. -/
def pulseCount.scan (lo hi : Event) : Bool → List Event → Nat
  | _, [] => 0
  | armed, e :: rest =>
      if armed = true ∧ e = hi then pulseCount.scan lo hi false rest + 1
      else pulseCount.scan lo hi (decide (e = lo)) rest

/-- Number of pulses in a sequence of events: the occurrences of `lo`
immediately followed by `hi`, read from left to right. -/
def pulseCount (lo hi : Event) (events : List Event) : Nat :=
  pulseCount.scan lo hi false events

/-- Number of stores to the data-port output register in a sequence of events. -/
def dataPortWrites (d : Gpio16BitAccessMode) : List Event → Nat
  | [] => 0
  | Event.store addr _ :: rest =>
      (if addr = d._portOutputRegister then 1 else 0) + dataPortWrites d rest
  | _ :: rest => dataPortWrites d rest

/-- The values stored to the data-port output register, in order. -/
def dataPortValues (d : Gpio16BitAccessMode) : List Event → List Nat
  | [] => []
  | Event.store addr val :: rest =>
      if addr = d._portOutputRegister then val :: dataPortValues d rest
      else dataPortValues d rest
  | _ :: rest => dataPortValues d rest

/-- Offset of the atomic-set register of the selected family: `BSRR` on F0 and
F1, `BSRRL` on F4. -/
def setOffset (mcu : Mcu) (G : GPIO_TypeDef) : Nat :=
  match mcu with
  | Mcu.F0 => G.BSRR
  | Mcu.F1 => G.BSRR
  | Mcu.F4 => G.BSRRL

/-- Offset of the atomic-reset register of the selected family: `BRR` on F0
and F1, `BSRRH` on F4. -/
def resetOffset (mcu : Mcu) (G : GPIO_TypeDef) : Nat :=
  match mcu with
  | Mcu.F0 => G.BRR
  | Mcu.F1 => G.BRR
  | Mcu.F4 => G.BSRRH

/-- Total time requested from the delay primitive. -/
def totalDelay : List Event → Nat
  | [] => 0
  | Event.delay ms :: rest => ms + totalDelay rest
  | _ :: rest => totalDelay rest

/-- Number of lines (bits 0 to 15) selected by a pin mask. -/
def lineCount (pins : Nat) : Nat :=
  ((List.range 16).filter (fun i => pins.testBit i)).length

/-- Number of lines configured as outputs by a sequence of events. -/
def configuredOutputs : List Event → Nat
  | [] => 0
  | Event.initialise _ pins GpioModeType.OUTPUT :: rest => lineCount pins + configuredOutputs rest
  | _ :: rest => configuredOutputs rest

/-- The levels of the bus lines that the events drive. `data` is the content
of the data port's output-level register, `control` the set of control-port
lines that are high. -/
structure Bus where
  data : Nat
  control : Nat
  deriving DecidableEq, Repr

/-- The effect of one event on the bus lines, as the comments of the source
read the registers: a store to the data port register replaces the data lines
(`port <= value`); a store of a mask to the control set address (or
`GPIO_SetBits` on the control port) raises the lines of the mask (`[wr] = 1`);
a store of a mask to the control reset address (or `GPIO_ResetBits` on the
control port) lowers them (`[wr] = 0`). -/
def Bus.apply (P : PinPackage) (d : Gpio16BitAccessMode) (b : Bus) : Event → Bus
  | Event.store addr val =>
      if addr = d._portOutputRegister then { b with data := val }
      else if addr = d._controlSetAddress then { b with control := b.control ||| val }
      else if addr = d._controlResetAddress then
        { b with control := b.control ^^^ (b.control &&& val) }
      else b
  | Event.setBits port pins =>
      if port = P.Port_CONTROL then { b with control := b.control ||| pins } else b
  | Event.resetBits port pins =>
      if port = P.Port_CONTROL then { b with control := b.control ^^^ (b.control &&& pins) }
      else b
  | Event.initialise _ _ _ => b
  | Event.delay _ => b

/-- The bus after a sequence of events. -/
def Bus.run (P : PinPackage) (d : Gpio16BitAccessMode) (b : Bus) : List Event → Bus
  | [] => b
  | e :: rest => Bus.run P d (Bus.apply P d b e) rest

/-- The lines of `mask` are all high. -/
def Bus.high (b : Bus) (mask : Nat) : Prop := b.control &&& mask = mask

/-- The lines of `mask` are all low. -/
def Bus.low (b : Bus) (mask : Nat) : Prop := b.control &&& mask = 0

/-- Register offsets of an STM32F0 GPIO block (`ODR`, `BSRR`, `BRR`); the F4
names are not declared on this family. -/
def exampleGpio : GPIO_TypeDef :=
  { ODR := 0x14, BSRR := 0x18, BRR := 0x28, BSRRL := 0, BSRRH := 0 }

/-- A pin package: data on port C, control on port B, RESET, WR and RS on
pins 0, 1 and 2. -/
def examplePackage : PinPackage :=
  { Port_DATA := 0x48000800, Port_CONTROL := 0x48000400,
    Pin_RESET := 0x0001, Pin_WR := 0x0002, Pin_RS := 0x0004 }

/-- The object constructed for `examplePackage` on an F0. -/
def exampleDriver : Gpio16BitAccessMode :=
  (construct Mcu.F0 exampleGpio examplePackage 0).1

/-- A flash address for the main block of `writeMultiData`. -/
def exampleCodeBase : Nat := 0x08000100

end Gpio16BitAccessMode

/-! ## Definitions for the strobe protocol and the instruction count -/

namespace Gpio16BitAccessMode

/-- The object and the pin package describe one bus: the stored masks are the
pins of the package, the write-strobe pin exists and shares no line with
register-select, and the data, set and reset registers are three different
registers. -/
def Wired (P : PinPackage) (d : Gpio16BitAccessMode) : Prop :=
  d._wr = P.Pin_WR ∧ d._rs = P.Pin_RS
  ∧ P.Pin_WR ≠ 0 ∧ P.Pin_RS &&& P.Pin_WR = 0
  ∧ d._portOutputRegister ≠ d._controlSetAddress
  ∧ d._portOutputRegister ≠ d._controlResetAddress
  ∧ d._controlSetAddress ≠ d._controlResetAddress

/-- Every write that drives the strobe low (`lo`) is immediately followed by
the write that drives it high (`hi`). -/
def risesAfterFalls (lo hi : Event) : List Event → Prop
  | [] => True
  | e :: rest => (e = lo → rest.head? = some hi) ∧ risesAfterFalls lo hi rest

/-- Strobe discipline of a sequence of events started on the bus `b`: an event
that finds the write-strobe not high raises it and changes neither the data
port nor the level of register-select. -/
def Bus.strobeDiscipline (P : PinPackage) (d : Gpio16BitAccessMode) : Bus → List Event → Prop
  | _, [] => True
  | b, e :: rest =>
      (¬ b.high P.Pin_WR →
        (Bus.apply P d b e).high P.Pin_WR
        ∧ (Bus.apply P d b e).data = b.data
        ∧ (Bus.apply P d b e).control &&& P.Pin_RS = b.control &&& P.Pin_RS)
      ∧ Bus.strobeDiscipline P d (Bus.apply P d b e) rest

instance Wired.decidable (P : PinPackage) (d : Gpio16BitAccessMode) : Decidable (Wired P d) := by
  unfold Wired; exact inferInstance

instance Bus.high.decidable (b : Bus) (mask : Nat) : Decidable (b.high mask) := by
  unfold Bus.high; exact inferInstance

instance risesAfterFalls.decidable (lo hi : Event) :
    (events : List Event) → Decidable (risesAfterFalls lo hi events)
  | [] => isTrue trivial
  | e :: rest =>
      have := risesAfterFalls.decidable lo hi rest
      by unfold risesAfterFalls; exact inferInstance

instance Bus.strobeDiscipline.decidable (P : PinPackage) (d : Gpio16BitAccessMode) :
    (b : Bus) → (events : List Event) → Decidable (Bus.strobeDiscipline P d b events)
  | _, [] => isTrue trivial
  | b, e :: rest =>
      have := Bus.strobeDiscipline.decidable P d (Bus.apply P d b e) rest
      by unfold Bus.strobeDiscipline; exact inferInstance


/-- A sequence of register writes keeps the strobe protocol: every strobe-low
write is immediately followed by the strobe-high write, and on every bus that
starts with the write-strobe high the strobe discipline holds. -/
def StrobeSafe (P : PinPackage) (d : Gpio16BitAccessMode) (events : List Event) : Prop :=
  risesAfterFalls (strobeLow P d) (strobeHigh P d) events
  ∧ ∀ b : Bus, b.high P.Pin_WR → Bus.strobeDiscipline P d b events

end Gpio16BitAccessMode

namespace Thumb

/-- Execute exactly `n` instructions of the block. There is no instruction
at `finished`, so stepping on from there is `none`. -/
def stepN (env : Env) : Nat → Cpu → Option Cpu
  | 0, s => some s
  | n + 1, s =>
      match stepN env n s with
      | none => none
      | some s' => step env s'

/-- Index of the first instruction of the tail of 39 toggle pairs: the five
instructions of the remainder dispatch follow `lastlot`. -/
def tailStart : Nat := 90

end Thumb

namespace Gpio16BitAccessMode

/-- The operands with which `writeMultiData` enters its main block. -/
def mainEnv (P : PinPackage) (d : Gpio16BitAccessMode) (codeBase : Nat) : Thumb.Env :=
  { creset := d._controlResetAddress
    cset := d._controlSetAddress
    wr := P.Pin_WR
    codeBase := codeBase }

/-- The processor state with which `writeMultiData` enters its main block. -/
def mainStart (P : PinPackage) (d : Gpio16BitAccessMode) (howMuch value : Nat) : Thumb.Cpu :=
  { pc := 0
    howmuch := howMuch % 2 ^ 32
    jump := d._jump % 2 ^ 32
    carry := false
    out := [ Event.store d._portOutputRegister (value % 2 ^ 16),
             Event.store d._controlSetAddress P.Pin_RS ] }

end Gpio16BitAccessMode

namespace Thumb

/-- The jump target in the words of the spec: the address of the end label
minus four bytes for each of the `r` remaining pulses. -/
def jumpTarget (env : Env) (r : Nat) : Nat := env.addrOf finished - 4 * r

end Thumb

/-! ## The Thumb machine on the main block -/
namespace Thumb

theorem Env.pulses_add (env : Env) (a b : Nat) :
    env.pulses (a + b) = env.pulses a ++ env.pulses b := by
  induction a with
  | zero => simp [Env.pulses]
  | succ a ih =>
    rw [Nat.add_right_comm, Env.pulses, Env.pulses, ih, List.append_assoc]

theorem Env.pulses_succ_front (env : Env) (k : Nat) :
    [Event.store env.creset env.wr] ++ ([Event.store env.cset env.wr] ++ env.pulses k)
      = env.pulses (k + 1) := rfl

set_option maxRecDepth 100000 in
theorem fetch_batch : ∀ j, j < 40 →
    mainBlock[2 + 2 * j]? = some (Instr.str_wr AddrOperand.creset) ∧
    mainBlock[2 + 2 * j + 1]? = some (Instr.str_wr AddrOperand.cset) := by
  decide

set_option maxRecDepth 100000 in
theorem fetch_tail : ∀ j, j < 39 →
    mainBlock[90 + 2 * j]? = some (Instr.str_wr AddrOperand.creset) ∧
    mainBlock[90 + 2 * j + 1]? = some (Instr.str_wr AddrOperand.cset) := by
  decide

theorem run_succ (env : Env) (fuel : Nat) (s : Cpu) :
    run env (fuel + 1) s =
      if s.pc = finished then some s
      else match step env s with
        | none => none
        | some s' => run env fuel s' := rfl

theorem run_of_step {env : Env} {fuel : Nat} {s s' : Cpu} (hpc : s.pc ≠ finished)
    (h : step env s = some s') : run env (fuel + 1) s = run env fuel s' := by
  rw [run_succ, if_neg hpc, h]

theorem run_finished {env : Env} {fuel : Nat} {s : Cpu} (hpc : s.pc = finished) :
    run env (fuel + 1) s = some s := by
  rw [run_succ, if_pos hpc]

theorem step_str (env : Env) {s : Cpu} {b : AddrOperand}
    (h : mainBlock[s.pc]? = some (Instr.str_wr b)) :
    step env s = some { s with pc := s.pc + 1, out := s.out ++ [Event.store (env.addr b) env.wr] } := by
  unfold step; rw [h]

/-- Running a straight-line region of toggle pairs: entering `k` pairs before
its end emits `k` pulses and leaves the registers alone. -/
theorem run_pairs (env : Env) (b n : Nat)
    (hfetch : ∀ j, j < n →
      mainBlock[b + 2 * j]? = some (Instr.str_wr AddrOperand.creset) ∧
      mainBlock[b + 2 * j + 1]? = some (Instr.str_wr AddrOperand.cset))
    (hb : b + 2 * n ≤ finished) :
    ∀ k, k ≤ n → ∀ (fuel : Nat) (s : Cpu), s.pc = b + 2 * (n - k) →
      run env (fuel + 2 * k) s
        = run env fuel { s with pc := b + 2 * n, out := s.out ++ env.pulses k } := by
  intro k
  induction k with
  | zero =>
    intro _ fuel s hpc
    have : s = { s with pc := b + 2 * n, out := s.out ++ env.pulses 0 } := by
      cases s; simp only [Env.pulses, List.append_nil] at *; simp [hpc]
    rw [← this]; rfl
  | succ k ih =>
    intro hk fuel s hpc
    obtain ⟨h0, h1⟩ := hfetch (n - (k + 1)) (by omega)
    have e1 : step env s = _ := step_str env (s := s) (by rw [hpc]; exact h0)
    have hne1 : s.pc ≠ finished := by omega
    have hf : fuel + 2 * (k + 1) = (fuel + 2 * k + 1) + 1 := by omega
    rw [hf, run_of_step hne1 e1]
    have e2 := step_str env
      (s := { s with pc := s.pc + 1, out := s.out ++ [Event.store (env.addr AddrOperand.creset) env.wr] })
      (b := AddrOperand.cset) (by show mainBlock[s.pc + 1]? = _; rw [hpc]; exact h1)
    have hne2 : s.pc + 1 ≠ finished := by omega
    rw [run_of_step (by exact hne2) e2]
    rw [ih (by omega) fuel _ (by show s.pc + 1 + 1 = _; omega)]
    simp only [Env.addr, List.append_assoc, Env.pulses_succ_front]

theorem step_cmp {s : Cpu} (env : Env) {imm : Nat}
    (h : mainBlock[s.pc]? = some (Instr.cmp_howmuch imm)) :
    step env s = some { s with pc := s.pc + 1, carry := decide (imm ≤ s.howmuch) } := by
  unfold step; rw [h]

theorem step_blo {s : Cpu} (env : Env) {l : Nat}
    (h : mainBlock[s.pc]? = some (Instr.blo l)) :
    step env s = some { s with pc := if s.carry then s.pc + 1 else l } := by
  unfold step; rw [h]

theorem step_bhs {s : Cpu} (env : Env) {l : Nat}
    (h : mainBlock[s.pc]? = some (Instr.bhs l)) :
    step env s = some { s with pc := if s.carry then l else s.pc + 1 } := by
  unfold step; rw [h]

theorem step_sub_howmuch {s : Cpu} (env : Env) {imm : Nat}
    (h : mainBlock[s.pc]? = some (Instr.sub_howmuch imm)) :
    step env s = some { s with pc := s.pc + 1, howmuch := (s.howmuch + 2 ^ 32 - imm) % 2 ^ 32 } := by
  unfold step; rw [h]

theorem step_ldr_jump {s : Cpu} (env : Env) {l : Nat}
    (h : mainBlock[s.pc]? = some (Instr.ldr_jump l)) :
    step env s = some { s with pc := s.pc + 1, jump := env.addrOf l % 2 ^ 32 } := by
  unfold step; rw [h]

theorem step_lsl_howmuch {s : Cpu} (env : Env) {sh : Nat}
    (h : mainBlock[s.pc]? = some (Instr.lsl_howmuch sh)) :
    step env s = some { s with pc := s.pc + 1, howmuch := (s.howmuch * 2 ^ sh) % 2 ^ 32 } := by
  unfold step; rw [h]

theorem step_sub_jump {s : Cpu} (env : Env)
    (h : mainBlock[s.pc]? = some Instr.sub_jump_howmuch) :
    step env s = some { s with pc := s.pc + 1, jump := (s.jump + 2 ^ 32 - s.howmuch) % 2 ^ 32 } := by
  unfold step; rw [h]

theorem step_add_jump {s : Cpu} (env : Env) {imm : Nat}
    (h : mainBlock[s.pc]? = some (Instr.add_jump imm)) :
    step env s = some { s with pc := s.pc + 1, jump := (s.jump + imm) % 2 ^ 32 } := by
  unfold step; rw [h]

theorem step_bx {s : Cpu} (env : Env) {i : Nat}
    (h : mainBlock[s.pc]? = some Instr.bx_jump)
    (hcb : env.codeBase % 2 = 0)
    (hj : s.jump = env.codeBase + 2 * i + 1) (hi : i ≤ finished) :
    step env s = some { s with pc := i } := by
  unfold step; rw [h]
  have h1 : s.jump % 2 = 1 := by omega
  have h2 : s.jump - 1 - env.codeBase = 2 * i := by omega
  have h3 : env.codeBase ≤ s.jump - 1 := by omega
  simp only [h1, h2, h3, if_true, true_and]
  have h4 : 2 * i % 2 = 0 := by omega
  have h5 : 2 * i / 2 = i := by omega
  simp [h4, h5, hi]

set_option maxRecDepth 100000 in
theorem fetch_fixed :
    mainBlock[0]? = some (Instr.cmp_howmuch 40) ∧
    mainBlock[0 + 1]? = some (Instr.blo lastlot) ∧
    mainBlock[82]? = some (Instr.sub_howmuch 40) ∧
    mainBlock[82 + 1]? = some (Instr.cmp_howmuch 40) ∧
    mainBlock[82 + 1 + 1]? = some (Instr.bhs batchloop) ∧
    mainBlock[85]? = some (Instr.ldr_jump finished) ∧
    mainBlock[85 + 1]? = some (Instr.lsl_howmuch 2) ∧
    mainBlock[85 + 1 + 1]? = some Instr.sub_jump_howmuch ∧
    mainBlock[85 + 1 + 1 + 1]? = some (Instr.add_jump 1) ∧
    mainBlock[85 + 1 + 1 + 1 + 1]? = some Instr.bx_jump := by
  decide

theorem run_of_step_at {env : Env} {fuel pc hm j : Nat} {c : Bool} {out : List Event}
    {s' : Cpu} (hpc : pc ≠ finished) (h : step env ⟨pc, hm, j, c, out⟩ = some s') :
    run env (fuel + 1) ⟨pc, hm, j, c, out⟩ = run env fuel s' :=
  run_of_step hpc h

/-- The entry test: `cmp howmuch, #40; blo lastlot`. -/
theorem run_entry (env : Env) (fuel hm j : Nat) (c : Bool) (out : List Event) :
    run env (fuel + 2) ⟨0, hm, j, c, out⟩
      = run env fuel ⟨if 40 ≤ hm then batchloop else lastlot, hm, j, decide (40 ≤ hm), out⟩ := by
  rw [run_of_step_at (by decide) (step_cmp env (s := ⟨0, hm, j, c, out⟩) fetch_fixed.1)]
  rw [run_of_step_at (by decide)
    (step_blo env (s := ⟨0 + 1, hm, j, decide (40 ≤ hm), out⟩) fetch_fixed.2.1)]
  refine congrArg (run env fuel) ?_
  by_cases h : 40 ≤ hm <;> simp [h, batchloop]

/-- One pass through the batch: 40 pulses, then `sub`, `cmp`, `bhs`. -/
theorem run_batch (env : Env) (fuel hm j : Nat) (c : Bool) (out : List Event)
    (h40 : 40 ≤ hm) (h32 : hm < 2 ^ 32) :
    run env (fuel + 83) ⟨batchloop, hm, j, c, out⟩
      = run env fuel ⟨if 40 ≤ hm - 40 then batchloop else lastlot, hm - 40, j,
          decide (40 ≤ hm - 40), out ++ env.pulses 40⟩ := by
  have hp := run_pairs env 2 40 fetch_batch (by decide) 40 (Nat.le_refl _) (fuel + 3)
    ⟨batchloop, hm, j, c, out⟩ rfl
  have hf : fuel + 83 = fuel + 3 + 2 * 40 := by omega
  rw [hf, hp]
  show run env (fuel + 2 + 1) ⟨82, hm, j, c, out ++ env.pulses 40⟩ = _
  rw [run_of_step_at (by decide)
    (step_sub_howmuch env (s := ⟨82, hm, j, c, out ++ env.pulses 40⟩) fetch_fixed.2.2.1)]
  have hsub : (hm + 2 ^ 32 - 40) % 2 ^ 32 = hm - 40 := by omega
  rw [run_of_step_at (by decide)
    (step_cmp env (s := ⟨82 + 1, (hm + 2 ^ 32 - 40) % 2 ^ 32, j, c, out ++ env.pulses 40⟩)
      fetch_fixed.2.2.2.1)]
  rw [run_of_step_at (by decide)
    (step_bhs env (s := ⟨82 + 1 + 1, (hm + 2 ^ 32 - 40) % 2 ^ 32, j,
      decide (40 ≤ (hm + 2 ^ 32 - 40) % 2 ^ 32), out ++ env.pulses 40⟩)
      fetch_fixed.2.2.2.2.1)]
  refine congrArg (run env fuel) ?_
  rw [hsub]
  by_cases h : 40 ≤ hm - 40 <;> simp only [h, lastlot, batchloop, decide_True, decide_False, if_true, if_false, Bool.false_eq_true]

/-- The batch loop: entered with at least 40 pulses to go, it emits all full
batches and reaches `lastlot` with the remainder. -/
theorem run_batches (env : Env) :
    ∀ (q fuel hm j : Nat) (c : Bool) (out : List Event),
      40 * (q + 1) ≤ hm → hm < 40 * (q + 2) → hm < 2 ^ 32 →
      run env (fuel + 83 * (q + 1)) ⟨batchloop, hm, j, c, out⟩
        = run env fuel ⟨lastlot, hm - 40 * (q + 1), j, false,
            out ++ env.pulses (40 * (q + 1))⟩ := by
  intro q
  induction q with
  | zero =>
    intro fuel hm j c out h1 h2 h3
    have hlt : ¬ 40 ≤ hm - 40 := by omega
    have hb := run_batch env fuel hm j c out (by omega) h3
    rw [if_neg hlt, decide_eq_false hlt] at hb
    exact hb
  | succ q ih =>
    intro fuel hm j c out h1 h2 h3
    have hge : 40 ≤ hm - 40 := by omega
    have hf : fuel + 83 * (q + 1 + 1) = (fuel + 83 * (q + 1)) + 83 := by omega
    rw [hf, run_batch env _ hm j c out (by omega) h3, if_pos hge]
    rw [ih fuel (hm - 40) j _ _ (by omega) (by omega) (by omega)]
    have e1 : hm - 40 - 40 * (q + 1) = hm - 40 * (q + 1 + 1) := by omega
    have e2 : 40 * (q + 1 + 1) = 40 + 40 * (q + 1) := by omega
    rw [e1, e2, Env.pulses_add, List.append_assoc]

/-- The remainder dispatch: `ldr`, `lsl`, `sub`, `add`, `bx` land `r` toggle
pairs before `finished`. -/
theorem run_lastlot (env : Env) (hcb : env.codeBase % 2 = 0)
    (hfit : env.codeBase + 2 * finished < 2 ^ 32)
    (fuel r j : Nat) (c : Bool) (out : List Event) (hr : r < 40) :
    run env (fuel + 5) ⟨lastlot, r, j, c, out⟩
      = run env fuel ⟨finished - 2 * r, 4 * r,
          env.codeBase + 2 * (finished - 2 * r) + 1, c, out⟩ := by
  have hfin : finished = 168 := rfl
  have hj1 : env.addrOf finished % 2 ^ 32 = env.codeBase + 336 := by
    simp only [Env.addrOf, hfin] at *; omega
  have hh : r * 2 ^ 2 % 2 ^ 32 = 4 * r := by omega
  have hj2 : (env.codeBase + 336 + 2 ^ 32 - 4 * r) % 2 ^ 32 = env.codeBase + 336 - 4 * r := by
    rw [hfin] at hfit; omega
  have hj3 : (env.codeBase + 336 - 4 * r + 1) % 2 ^ 32
      = env.codeBase + 2 * (finished - 2 * r) + 1 := by
    rw [hfin] at hfit ⊢; omega
  have s1 := step_ldr_jump env (s := ⟨85, r, j, c, out⟩) fetch_fixed.2.2.2.2.2.1
  have s2 := step_lsl_howmuch env (s := ⟨85 + 1, r, env.addrOf finished % 2 ^ 32, c, out⟩)
    fetch_fixed.2.2.2.2.2.2.1
  rw [hj1] at s1 s2
  have s3 := step_sub_jump env (s := ⟨85 + 1 + 1, r * 2 ^ 2 % 2 ^ 32, env.codeBase + 336, c, out⟩)
    fetch_fixed.2.2.2.2.2.2.2.1
  rw [hh] at s2 s3
  have s4 := step_add_jump env
    (s := ⟨85 + 1 + 1 + 1, 4 * r, (env.codeBase + 336 + 2 ^ 32 - 4 * r) % 2 ^ 32, c, out⟩)
    fetch_fixed.2.2.2.2.2.2.2.2.1
  rw [hj2] at s3 s4
  have s5 := step_bx env
    (s := ⟨85 + 1 + 1 + 1 + 1, 4 * r, (env.codeBase + 336 - 4 * r + 1) % 2 ^ 32, c, out⟩)
    (i := finished - 2 * r) fetch_fixed.2.2.2.2.2.2.2.2.2 hcb hj3 (by omega)
  rw [hj3] at s4 s5
  have hf : fuel + 5 = fuel + 1 + 1 + 1 + 1 + 1 := rfl
  rw [hf]
  show run env (fuel + 1 + 1 + 1 + 1 + 1) ⟨85, r, j, c, out⟩ = _
  rw [run_of_step_at (by decide) s1, run_of_step_at (by decide) s2,
    run_of_step_at (by decide) s3, run_of_step_at (by decide) s4,
    run_of_step_at (by decide) s5]

/-- The tail: entered `r` toggle pairs before `finished`, it emits `r` pulses
and stops at `finished`. -/
theorem run_tail (env : Env) (fuel r hm j : Nat) (c : Bool) (out : List Event) (hr : r < 40) :
    run env (fuel + 1 + 2 * r) ⟨finished - 2 * r, hm, j, c, out⟩
      = some ⟨finished, hm, j, c, out ++ env.pulses r⟩ := by
  have hp := run_pairs env 90 39 fetch_tail (by decide) r (by omega) (fuel + 1)
    ⟨finished - 2 * r, hm, j, c, out⟩ (by show finished - 2 * r = _; simp only [finished]; omega)
  rw [hp]
  exact run_finished rfl

/-- The whole main block: with enough fuel it reaches `finished` having
emitted exactly `count` pulses after what was already written. -/
theorem run_mainBlock (env : Env) (hcb : env.codeBase % 2 = 0)
    (hfit : env.codeBase + 2 * finished < 2 ^ 32)
    (count j : Nat) (c : Bool) (out : List Event) (hcount : count < 2 ^ 32)
    (fuel : Nat) (hfuel : 83 * (count / 40) + 86 ≤ fuel) :
    run env fuel ⟨0, count, j, c, out⟩
      = some ⟨finished, 4 * (count % 40),
          env.codeBase + 2 * (finished - 2 * (count % 40)) + 1, false,
          out ++ env.pulses count⟩ := by
  have hr : count % 40 < 40 := Nat.mod_lt _ (by decide)
  by_cases h40 : 40 ≤ count
  · obtain ⟨q, hq⟩ : ∃ q, count / 40 = q + 1 := ⟨count / 40 - 1, by omega⟩
    obtain ⟨x, hx⟩ : ∃ x, fuel = (((x + 1 + 2 * (count % 40)) + 5) + 83 * (q + 1)) + 2 :=
      ⟨fuel - (83 * (count / 40) + 8 + 2 * (count % 40)), by omega⟩
    rw [hx, run_entry, if_pos h40,
      run_batches env q _ count j _ out (by omega) (by omega) hcount]
    have e1 : count - 40 * (q + 1) = count % 40 := by omega
    rw [e1, run_lastlot env hcb hfit _ _ j _ _ hr, run_tail env x _ _ _ _ _ hr,
      List.append_assoc, ← Env.pulses_add]
    have e2 : 40 * (q + 1) + count % 40 = count := by omega
    rw [e2]
  · have hm : count % 40 = count := Nat.mod_eq_of_lt (by omega)
    obtain ⟨x, hx⟩ : ∃ x, fuel = ((x + 1 + 2 * count) + 5) + 2 :=
      ⟨fuel - (8 + 2 * count), by omega⟩
    rw [hm, hx, run_entry, if_neg h40, decide_eq_false h40,
      run_lastlot env hcb hfit _ _ j _ _ (by omega), run_tail env x _ _ _ _ _ (by omega)]

end Thumb

namespace Gpio16BitAccessMode

/-! ## Helper lemmas for the operations -/

theorem pulses_eq_writeDataAgainTimes (P : PinPackage) (d : Gpio16BitAccessMode)
    (codeBase value n : Nat) :
    Thumb.Env.pulses ⟨d._controlResetAddress, d._controlSetAddress, P.Pin_WR, codeBase⟩ n
      = writeDataAgainTimes P d value n := by
  induction n with
  | zero => rfl
  | succ n ih => simp only [Thumb.Env.pulses, writeDataAgainTimes, writeDataAgain, ih]

/-- The trace of `writeMultiData` for every sufficient amount of fuel. -/
theorem writeMultiDataFuel_eq (P : PinPackage) (d : Gpio16BitAccessMode)
    (codeBase count value : Nat) (hcb : codeBase % 2 = 0)
    (hfit : codeBase + 2 * Thumb.finished < 2 ^ 32) (hcount : count < 2 ^ 32)
    (fuel : Nat) (hfuel : writeMultiDataSteps count ≤ fuel) :
    writeMultiDataFuel fuel P d codeBase count value
      = some ([Event.store d._portOutputRegister (value % 2 ^ 16),
               Event.store d._controlSetAddress P.Pin_RS]
              ++ writeDataAgainTimes P d value count) := by
  have hmod : count % 2 ^ 32 = count := Nat.mod_eq_of_lt hcount
  have hfuel2 : 83 * (count / 40) + 86 ≤ fuel := by
    simpa only [writeMultiDataSteps, hmod] using hfuel
  have hrun := Thumb.run_mainBlock
    ⟨d._controlResetAddress, d._controlSetAddress, P.Pin_WR, codeBase⟩ hcb hfit count
    (d._jump % 2 ^ 32) false
    [Event.store d._portOutputRegister (value % 2 ^ 16),
     Event.store d._controlSetAddress P.Pin_RS] hcount fuel hfuel2
  simp only [writeMultiDataFuel, hmod, hrun, pulses_eq_writeDataAgainTimes P d codeBase value]

theorem writeMultiData_eq (P : PinPackage) (d : Gpio16BitAccessMode)
    (codeBase count value : Nat) (hcb : codeBase % 2 = 0)
    (hfit : codeBase + 2 * Thumb.finished < 2 ^ 32) (hcount : count < 2 ^ 32) :
    writeMultiData P d codeBase count value
      = some ([Event.store d._portOutputRegister (value % 2 ^ 16),
               Event.store d._controlSetAddress P.Pin_RS]
              ++ writeDataAgainTimes P d value count) :=
  writeMultiDataFuel_eq P d codeBase count value hcb hfit hcount _ (Nat.le_refl _)

theorem writeDataAgainTimes_length (P : PinPackage) (d : Gpio16BitAccessMode)
    (value n : Nat) : (writeDataAgainTimes P d value n).length = 2 * n := by
  induction n with
  | zero => rfl
  | succ n ih => simp only [writeDataAgainTimes, writeDataAgain, List.length_append,
      List.length_cons, List.length_nil, ih]; omega

theorem writeDataAgainTimes_succ_end (P : PinPackage) (d : Gpio16BitAccessMode)
    (value n : Nat) :
    writeDataAgainTimes P d value (n + 1)
      = writeDataAgainTimes P d value n ++ [strobeLow P d, strobeHigh P d] := by
  induction n with
  | zero => rfl
  | succ n ih =>
    calc writeDataAgainTimes P d value (n + 1 + 1)
        = writeDataAgain P d value ++ writeDataAgainTimes P d value (n + 1) := rfl
      _ = writeDataAgain P d value
            ++ (writeDataAgainTimes P d value n ++ [strobeLow P d, strobeHigh P d]) := by
          rw [ih]
      _ = (writeDataAgain P d value ++ writeDataAgainTimes P d value n)
            ++ [strobeLow P d, strobeHigh P d] := by
          rw [List.append_assoc]
      _ = writeDataAgainTimes P d value (n + 1) ++ [strobeLow P d, strobeHigh P d] := rfl

theorem pulseCount_scan_pulses (P : PinPackage) (d : Gpio16BitAccessMode) (value n : Nat) :
    pulseCount.scan (strobeLow P d) (strobeHigh P d) false (writeDataAgainTimes P d value n)
      = n := by
  induction n with
  | zero => rfl
  | succ n ih =>
    show pulseCount.scan _ _ false (strobeLow P d :: strobeHigh P d :: _) = _
    simp [pulseCount.scan, ih]

theorem pulseCount_scan_skip (lo hi e : Event) (rest : List Event) (h : e ≠ lo) :
    pulseCount.scan lo hi false (e :: rest) = pulseCount.scan lo hi false rest := by
  simp [pulseCount.scan, h]

/-! ## Bus lemmas -/

theorem or_and_self_mask (c w : Nat) : (c ||| w) &&& w = w := by
  apply Nat.eq_of_testBit_eq
  intro i
  simp only [Nat.testBit_and, Nat.testBit_or]
  cases c.testBit i <;> cases w.testBit i <;> rfl

theorem Bus.run_append (P : PinPackage) (d : Gpio16BitAccessMode) (b : Bus)
    (xs ys : List Event) :
    Bus.run P d b (xs ++ ys) = Bus.run P d (Bus.run P d b xs) ys := by
  induction xs generalizing b with
  | nil => rfl
  | cons x xs ih => exact ih _

/-- A store of a mask to the control set register leaves the lines of the mask
high, provided that register is not also the data register. -/
theorem Bus.high_after_set (P : PinPackage) (d : Gpio16BitAccessMode) (b : Bus) (mask : Nat)
    (h : d._controlSetAddress ≠ d._portOutputRegister) :
    (Bus.apply P d b (Event.store d._controlSetAddress mask)).high mask := by
  simp only [Bus.apply, if_neg h, if_true, Bus.high]
  exact or_and_self_mask _ _

theorem Bus.high_or (c m w : Nat) (h : c &&& w = w) : (c ||| m) &&& w = w := by
  apply Nat.eq_of_testBit_eq
  intro i
  have hi := congrArg (fun x => x.testBit i) h
  simp only [Nat.testBit_and, Nat.testBit_or] at hi ⊢
  cases hc : c.testBit i <;> cases hm : m.testBit i <;> cases hw : w.testBit i <;>
    simp_all

theorem getLast?_append_two {α : Type} (xs : List α) (a b : α) :
    (xs ++ [a, b]).getLast? = some b := by
  have h : xs ++ [a, b] = (xs ++ [a]) ++ [b] := by simp
  rw [h, List.getLast?_append]
  simp

theorem mem_writeDataAgainTimes (P : PinPackage) (d : Gpio16BitAccessMode) (value n : Nat)
    (e : Event) (he : e ∈ writeDataAgainTimes P d value n) :
    e = strobeLow P d ∨ e = strobeHigh P d := by
  induction n with
  | zero => cases he
  | succ n ih =>
    simp only [writeDataAgainTimes, writeDataAgain, List.mem_append, List.mem_cons,
      List.mem_nil_iff, or_false] at he
    rcases he with (h | h) | h
    · exact Or.inl h
    · exact Or.inr h
    · exact ih h

theorem dataPortWrites_writeDataAgainTimes (P : PinPackage) (d : Gpio16BitAccessMode)
    (value n : Nat) (h1 : d._portOutputRegister ≠ d._controlSetAddress)
    (h2 : d._portOutputRegister ≠ d._controlResetAddress) :
    dataPortWrites d (writeDataAgainTimes P d value n) = 0 := by
  induction n with
  | zero => rfl
  | succ n ih =>
    show dataPortWrites d (Event.store _ _ :: Event.store _ _ :: writeDataAgainTimes P d value n) = 0
    simp only [dataPortWrites, if_neg (Ne.symm h1), if_neg (Ne.symm h2), ih]

theorem Bus.apply_store_data_of_ne (P : PinPackage) (d : Gpio16BitAccessMode) (b : Bus)
    (addr val : Nat) (h : addr ≠ d._portOutputRegister) :
    (Bus.apply P d b (Event.store addr val)).data = b.data := by
  simp only [Bus.apply, if_neg h]
  split_ifs <;> rfl

theorem Bus.apply_store_data (P : PinPackage) (d : Gpio16BitAccessMode) (b : Bus)
    (val : Nat) :
    (Bus.apply P d b (Event.store d._portOutputRegister val)).data = val := by
  simp only [Bus.apply, if_true]

theorem Bus.data_writeDataAgainTimes (P : PinPackage) (d : Gpio16BitAccessMode)
    (value n : Nat) (h1 : d._portOutputRegister ≠ d._controlSetAddress)
    (h2 : d._portOutputRegister ≠ d._controlResetAddress) (b : Bus) :
    (Bus.run P d b (writeDataAgainTimes P d value n)).data = b.data := by
  induction n generalizing b with
  | zero => rfl
  | succ n ih =>
    show (Bus.run P d (Bus.apply P d (Bus.apply P d b (Event.store _ _)) (Event.store _ _))
      (writeDataAgainTimes P d value n)).data = _
    rw [ih, Bus.apply_store_data_of_ne P d _ _ _ (Ne.symm h1),
      Bus.apply_store_data_of_ne P d _ _ _ (Ne.symm h2)]

theorem Bus.high_writeMultiData_trace (P : PinPackage) (d : Gpio16BitAccessMode)
    (value count : Nat) (h : d._controlSetAddress ≠ d._portOutputRegister) (b : Bus)
    (hb : b.high P.Pin_WR) :
    (Bus.run P d b ([Event.store d._portOutputRegister (value % 2 ^ 16),
        Event.store d._controlSetAddress P.Pin_RS]
        ++ writeDataAgainTimes P d value count)).high P.Pin_WR := by
  cases count with
  | zero =>
    simp only [writeDataAgainTimes, List.append_nil, Bus.run, Bus.apply, if_true, if_neg h,
      Bus.high] at hb ⊢
    exact Bus.high_or _ _ _ hb
  | succ n =>
    rw [writeDataAgainTimes_succ_end, ← List.append_assoc, Bus.run_append]
    exact Bus.high_after_set P d _ _ h

/-! ## Claims -/

/-- C1: for every `count` in the uint32 range `writeMultiData(count, v)`
terminates (with its own fuel and with any larger amount) and, after its two
opening stores, emits exactly the events of the naive loop that issues one
toggle pair per iteration: `count` write-strobe pulses, each a write of the WR
mask to the control reset register followed by a write of the WR mask to the
control set register. When `count` is not zero the last write is the strobe-high
one, and a strobe that is high on entry is high on exit. The main block is
assumed to sit at a halfword-aligned address `codeBase` and to end inside the
32-bit address space. -/
theorem writeMultiData_emits_count_pulses (P : PinPackage) (d : Gpio16BitAccessMode)
    (codeBase count value : Nat) (hcb : codeBase % 2 = 0)
    (hfit : codeBase + 2 * Thumb.finished < 2 ^ 32) (hcount : count < 2 ^ 32) :
    (∀ fuel, writeMultiDataSteps count ≤ fuel →
      writeMultiDataFuel fuel P d codeBase count value
        = writeMultiData P d codeBase count value)
    ∧ writeMultiData P d codeBase count value
        = some ([Event.store d._portOutputRegister (value % 2 ^ 16),
                 Event.store d._controlSetAddress P.Pin_RS]
                ++ writeDataAgainTimes P d value count)
    ∧ pulseCount (strobeLow P d) (strobeHigh P d) (writeDataAgainTimes P d value count) = count
    ∧ (writeDataAgainTimes P d value count).length = 2 * count
    ∧ (count ≠ 0 →
        ([Event.store d._portOutputRegister (value % 2 ^ 16),
          Event.store d._controlSetAddress P.Pin_RS]
          ++ writeDataAgainTimes P d value count).getLast? = some (strobeHigh P d))
    ∧ (d._portOutputRegister ≠ d._controlResetAddress →
        d._controlSetAddress ≠ d._controlResetAddress →
        pulseCount (strobeLow P d) (strobeHigh P d)
          ([Event.store d._portOutputRegister (value % 2 ^ 16),
            Event.store d._controlSetAddress P.Pin_RS]
            ++ writeDataAgainTimes P d value count) = count)
    ∧ (d._controlSetAddress ≠ d._portOutputRegister →
        ∀ b : Bus, b.high P.Pin_WR →
          (Bus.run P d b
            ([Event.store d._portOutputRegister (value % 2 ^ 16),
              Event.store d._controlSetAddress P.Pin_RS]
              ++ writeDataAgainTimes P d value count)).high P.Pin_WR) := by
  refine ⟨?_, writeMultiData_eq P d codeBase count value hcb hfit hcount,
    pulseCount_scan_pulses P d value count, writeDataAgainTimes_length P d value count,
    ?_, ?_, ?_⟩
  · intro fuel hfuel
    rw [writeMultiDataFuel_eq P d codeBase count value hcb hfit hcount fuel hfuel,
      writeMultiData_eq P d codeBase count value hcb hfit hcount]
  · intro hne
    obtain ⟨n, rfl⟩ : ∃ n, count = n + 1 := ⟨count - 1, by omega⟩
    rw [writeDataAgainTimes_succ_end, ← List.append_assoc]
    exact getLast?_append_two _ _ _
  · intro h1 h2
    have e1 : Event.store d._portOutputRegister (value % 2 ^ 16) ≠ strobeLow P d := by
      intro h; injection h with ha _; exact h1 ha
    have e2 : Event.store d._controlSetAddress P.Pin_RS ≠ strobeLow P d := by
      intro h; injection h with ha _; exact h2 ha
    show pulseCount.scan _ _ false (_ :: _ :: writeDataAgainTimes P d value count) = count
    rw [pulseCount_scan_skip _ _ _ _ e1, pulseCount_scan_skip _ _ _ _ e2]
    exact pulseCount_scan_pulses P d value count
  · intro h b hb
    exact Bus.high_writeMultiData_trace P d value count h b hb

/-- Witness of C1 at `count = 41`: one batch and one remaining pulse. -/
theorem writeMultiData_emits_count_pulses_witness :
    (exampleCodeBase % 2 = 0 ∧ exampleCodeBase + 2 * Thumb.finished < 2 ^ 32 ∧ 41 < 2 ^ 32)
    ∧ writeMultiData examplePackage exampleDriver exampleCodeBase 41 0xABCD
        = some ([Event.store exampleDriver._portOutputRegister (0xABCD % 2 ^ 16),
                 Event.store exampleDriver._controlSetAddress examplePackage.Pin_RS]
                ++ writeDataAgainTimes examplePackage exampleDriver 0xABCD 41)
    ∧ pulseCount (strobeLow examplePackage exampleDriver) (strobeHigh examplePackage exampleDriver)
        (writeDataAgainTimes examplePackage exampleDriver 0xABCD 41) = 41 :=
  ⟨⟨by decide, by decide, by decide⟩,
   (writeMultiData_emits_count_pulses examplePackage exampleDriver exampleCodeBase 41 0xABCD
      (by decide) (by decide) (by decide)).2.1,
   (writeMultiData_emits_count_pulses examplePackage exampleDriver exampleCodeBase 41 0xABCD
      (by decide) (by decide) (by decide)).2.2.1⟩

/-- C2: for every `count ≥ 1` in the uint32 range and every value, the
register writes of `writeMultiData(count, v)` are those of `writeData(v)` once
followed by `writeDataAgain(v)` exactly `count - 1` times (main block at a
halfword-aligned address, ending inside the 32-bit address space). -/
theorem writeMultiData_refines_spec (P : PinPackage) (d : Gpio16BitAccessMode)
    (codeBase count value : Nat) (hcb : codeBase % 2 = 0)
    (hfit : codeBase + 2 * Thumb.finished < 2 ^ 32)
    (hpos : 1 ≤ count) (hcount : count < 2 ^ 32) :
    writeMultiData P d codeBase count value = some (writeMultiDataSpec P d count value) := by
  rw [writeMultiData_eq P d codeBase count value hcb hfit hcount]
  obtain ⟨n, rfl⟩ : ∃ n, count = n + 1 := ⟨count - 1, by omega⟩
  rfl

/-- Witness of C2 at `count = 80`. -/
theorem writeMultiData_refines_spec_witness :
    (exampleCodeBase % 2 = 0 ∧ exampleCodeBase + 2 * Thumb.finished < 2 ^ 32
      ∧ 1 ≤ 80 ∧ 80 < 2 ^ 32)
    ∧ writeMultiData examplePackage exampleDriver exampleCodeBase 80 0x1234
        = some (writeMultiDataSpec examplePackage exampleDriver 80 0x1234) :=
  ⟨⟨by decide, by decide, by decide, by decide⟩,
   writeMultiData_refines_spec examplePackage exampleDriver exampleCodeBase 80 0x1234
     (by decide) (by decide) (by decide) (by decide)⟩

/-- The writes that follow the two opening stores of `writeMultiData` are
`2 * count` in number. -/
theorem writeMultiData_later_writes_length (P : PinPackage) (d : Gpio16BitAccessMode)
    (codeBase count value : Nat) (hcb : codeBase % 2 = 0)
    (hfit : codeBase + 2 * Thumb.finished < 2 ^ 32) (hcount : count < 2 ^ 32)
    (e1 e2 : Event) (later : List Event)
    (h : writeMultiData P d codeBase count value = some (e1 :: e2 :: later)) :
    later.length = 2 * count := by
  have htrace := writeMultiData_eq P d codeBase count value hcb hfit hcount
  generalize writeMultiData P d codeBase count value = r at h htrace
  subst h
  injection htrace with hlist
  injection hlist with _ htl
  injection htl with _ hrest
  rw [hrest]
  exact writeDataAgainTimes_length P d value count

/-- C3, counterexample: `writeMultiData(1, 0xABCD)` writes the data-port output
register and the RS mask to the control set register before it toggles the
strobe; a data port that held `0x1234` holds `0xABCD` after the call. -/
theorem writeMultiData_rewrites_data_port :
    writeMultiData examplePackage exampleDriver exampleCodeBase 1 0xABCD
      = some [Event.store 0x48000814 0xABCD, Event.store 0x48000418 0x0004,
              Event.store 0x48000428 0x0002, Event.store 0x48000418 0x0002]
    ∧ exampleDriver._portOutputRegister = 0x48000814
    ∧ dataPortWrites exampleDriver
        [Event.store 0x48000814 0xABCD, Event.store 0x48000418 0x0004,
         Event.store 0x48000428 0x0002, Event.store 0x48000418 0x0002] = 1
    ∧ (Bus.run examplePackage exampleDriver { data := 0x1234, control := 0x0002 }
        [Event.store 0x48000814 0xABCD, Event.store 0x48000418 0x0004,
         Event.store 0x48000428 0x0002, Event.store 0x48000418 0x0002]).data = 0xABCD
    ∧ (0xABCD : Nat) ≠ 0x1234 := by
  refine ⟨?_, by decide, by decide, by decide, by decide⟩
  rw [writeMultiData_eq examplePackage exampleDriver exampleCodeBase 1 0xABCD
    (by decide) (by decide) (by decide)]
  decide

/-- C3, amended: `writeMultiData(count, value)` first writes `value` to the
data-port output register and the RS mask to the control set register, once
each; every later write is a write-strobe toggle. With the three registers at
different addresses the data-port register is written exactly once and holds
`value` after the call (main block at a halfword-aligned address, ending inside
the 32-bit address space). -/
theorem writeMultiData_stores_then_strobes (P : PinPackage) (d : Gpio16BitAccessMode)
    (codeBase count value : Nat) (hcb : codeBase % 2 = 0)
    (hfit : codeBase + 2 * Thumb.finished < 2 ^ 32) (hcount : count < 2 ^ 32) :
    ∃ strobes : List Event,
      writeMultiData P d codeBase count value
        = some (Event.store d._portOutputRegister (value % 2 ^ 16)
                :: Event.store d._controlSetAddress P.Pin_RS :: strobes)
      ∧ (∀ e ∈ strobes, e = strobeLow P d ∨ e = strobeHigh P d)
      ∧ (d._portOutputRegister ≠ d._controlSetAddress →
          d._portOutputRegister ≠ d._controlResetAddress →
          dataPortWrites d (Event.store d._portOutputRegister (value % 2 ^ 16)
              :: Event.store d._controlSetAddress P.Pin_RS :: strobes) = 1
          ∧ ∀ b : Bus,
              (Bus.run P d b (Event.store d._portOutputRegister (value % 2 ^ 16)
                :: Event.store d._controlSetAddress P.Pin_RS :: strobes)).data
                = value % 2 ^ 16) := by
  refine ⟨writeDataAgainTimes P d value count,
    writeMultiData_eq P d codeBase count value hcb hfit hcount,
    mem_writeDataAgainTimes P d value count, ?_⟩
  intro h1 h2
  constructor
  · simp only [dataPortWrites, if_true, if_neg (Ne.symm h1),
      dataPortWrites_writeDataAgainTimes P d value count h1 h2]
  · intro b
    show (Bus.run P d (Bus.apply P d (Bus.apply P d b (Event.store _ _)) (Event.store _ _))
      (writeDataAgainTimes P d value count)).data = _
    rw [Bus.data_writeDataAgainTimes P d value count h1 h2,
      Bus.apply_store_data_of_ne P d _ _ _ (Ne.symm h1), Bus.apply_store_data]

/-- Witness of the amended C3 at `count = 41` (one batch and one remaining
pulse) on the example object, whose three registers are at different
addresses: the two opening stores are followed by 82 writes, all of them strobe
toggles; the data-port register is written exactly once and holds the value
after the call. -/
theorem writeMultiData_stores_then_strobes_witness :
    (exampleCodeBase % 2 = 0 ∧ exampleCodeBase + 2 * Thumb.finished < 2 ^ 32 ∧ 41 < 2 ^ 32
      ∧ exampleDriver._portOutputRegister ≠ exampleDriver._controlSetAddress
      ∧ exampleDriver._portOutputRegister ≠ exampleDriver._controlResetAddress)
    ∧ ∃ strobes : List Event,
        writeMultiData examplePackage exampleDriver exampleCodeBase 41 0xABCD
          = some (Event.store exampleDriver._portOutputRegister (0xABCD % 2 ^ 16)
              :: Event.store exampleDriver._controlSetAddress examplePackage.Pin_RS :: strobes)
        ∧ strobes.length = 82
        ∧ (∀ e ∈ strobes, e = strobeLow examplePackage exampleDriver
            ∨ e = strobeHigh examplePackage exampleDriver)
        ∧ dataPortWrites exampleDriver
            (Event.store exampleDriver._portOutputRegister (0xABCD % 2 ^ 16)
              :: Event.store exampleDriver._controlSetAddress examplePackage.Pin_RS :: strobes)
            = 1
        ∧ ∀ b : Bus,
            (Bus.run examplePackage exampleDriver b
              (Event.store exampleDriver._portOutputRegister (0xABCD % 2 ^ 16)
                :: Event.store exampleDriver._controlSetAddress examplePackage.Pin_RS
                :: strobes)).data = 0xABCD % 2 ^ 16 := by
  refine ⟨⟨by decide, by decide, by decide, by decide, by decide⟩, ?_⟩
  obtain ⟨strobes, hrun, hmem, hdata⟩ :=
    writeMultiData_stores_then_strobes examplePackage exampleDriver exampleCodeBase 41 0xABCD
      (by decide) (by decide) (by decide)
  have hlen : strobes.length = 82 :=
    writeMultiData_later_writes_length examplePackage exampleDriver exampleCodeBase 41 0xABCD
      (by decide) (by decide) (by decide) _ _ strobes hrun
  exact ⟨strobes, hrun, hlen, hmem, (hdata (by decide) (by decide)).1,
    (hdata (by decide) (by decide)).2⟩

/-! ## Bit lemmas for the control lines -/

theorem clear_and_self_mask (c m : Nat) : (c ^^^ (c &&& m)) &&& m = 0 := by
  apply Nat.eq_of_testBit_eq
  intro i
  simp only [Nat.testBit_and, Nat.testBit_xor, Nat.zero_testBit]
  cases c.testBit i <;> cases m.testBit i <;> rfl

theorem or_and_disjoint (c w m : Nat) (h : m &&& w = 0) : (c ||| w) &&& m = c &&& m := by
  apply Nat.eq_of_testBit_eq
  intro i
  have hi := congrArg (fun x => x.testBit i) h
  simp only [Nat.testBit_and, Nat.testBit_or, Nat.zero_testBit] at hi ⊢
  cases hc : c.testBit i <;> cases hm : m.testBit i <;> cases hw : w.testBit i <;>
    simp_all

theorem clear_and_disjoint (c w m : Nat) (h : m &&& w = 0) :
    (c ^^^ (c &&& w)) &&& m = c &&& m := by
  apply Nat.eq_of_testBit_eq
  intro i
  have hi := congrArg (fun x => x.testBit i) h
  simp only [Nat.testBit_and, Nat.testBit_xor, Nat.zero_testBit] at hi ⊢
  cases hc : c.testBit i <;> cases hm : m.testBit i <;> cases hw : w.testBit i <;>
    simp_all

/-- A store of a mask to the control reset register leaves the lines of the
mask low, provided that register is neither the data nor the set register. -/
theorem Bus.low_after_reset (P : PinPackage) (d : Gpio16BitAccessMode) (b : Bus) (mask : Nat)
    (h1 : d._controlResetAddress ≠ d._portOutputRegister)
    (h2 : d._controlResetAddress ≠ d._controlSetAddress) :
    (Bus.apply P d b (Event.store d._controlResetAddress mask)).low mask := by
  simp only [Bus.apply, if_neg h1, if_neg h2, if_true, Bus.low]
  exact clear_and_self_mask _ _

/-- A store to the control set or reset register does not move the lines
outside its mask. -/
theorem Bus.apply_store_control_disjoint (P : PinPackage) (d : Gpio16BitAccessMode) (b : Bus)
    (addr w m : Nat) (h : m &&& w = 0) :
    (Bus.apply P d b (Event.store addr w)).control &&& m = b.control &&& m := by
  simp only [Bus.apply]
  split_ifs
  · rfl
  · exact or_and_disjoint _ _ _ h
  · exact clear_and_disjoint _ _ _ h
  · rfl

/-! ## Claims on the single transactions -/

/-- C4: for every 16-bit `cmd`, `writeCommand(cmd)` performs exactly four
register writes, in this order: `cmd` to the data-port output register, the
stored RS mask to the control reset register, the stored WR mask to the control
reset register, the stored WR mask to the control set register. For an object
built by the constructor from 16-bit pins the stored masks are the pins of the
package. With the control reset register distinct from the other two, RS is
low after the two writes that precede the first strobe fall. -/
theorem writeCommand_sequence (P : PinPackage) (d : Gpio16BitAccessMode) (cmd : Nat)
    (hcmd : cmd < 2 ^ 16) :
    writeCommand P d cmd
      = [ Event.store d._portOutputRegister cmd,
          Event.store d._controlResetAddress d._rs,
          Event.store d._controlResetAddress d._wr,
          Event.store d._controlSetAddress d._wr ]
    ∧ (writeCommand P d cmd).length = 4
    ∧ (∀ (mcu : Mcu) (G : GPIO_TypeDef) (jump0 : Nat),
        P.Pin_RS < 2 ^ 16 → P.Pin_WR < 2 ^ 16 →
        writeCommand P (construct mcu G P jump0).1 cmd
          = [ Event.store (construct mcu G P jump0).1._portOutputRegister cmd,
              Event.store (construct mcu G P jump0).1._controlResetAddress P.Pin_RS,
              strobeLow P (construct mcu G P jump0).1,
              strobeHigh P (construct mcu G P jump0).1 ])
    ∧ (d._controlResetAddress ≠ d._portOutputRegister →
        d._controlResetAddress ≠ d._controlSetAddress →
        ∀ b : Bus, (Bus.run P d b ((writeCommand P d cmd).take 2)).low d._rs) := by
  have hmod : cmd % 2 ^ 16 = cmd := Nat.mod_eq_of_lt hcmd
  refine ⟨by simp only [writeCommand, hmod], rfl, ?_, ?_⟩
  · intro mcu G jump0 hrs hwr
    simp only [writeCommand, construct, strobeLow, strobeHigh, hmod,
      Nat.mod_eq_of_lt hrs, Nat.mod_eq_of_lt hwr]
  · intro h1 h2 b
    exact Bus.low_after_reset P d _ _ h1 h2

/-- Witness of C4 at `cmd = 0x2C`. -/
theorem writeCommand_sequence_witness :
    0x2C < 2 ^ 16
    ∧ writeCommand examplePackage exampleDriver 0x2C
        = [ Event.store 0x48000814 0x2C, Event.store 0x48000428 0x0004,
            Event.store 0x48000428 0x0002, Event.store 0x48000418 0x0002 ] :=
  ⟨by decide, (writeCommand_sequence examplePackage exampleDriver 0x2C (by decide)).1⟩

/-- C5: for every 16-bit `v`, `writeData(v)` performs exactly four register
writes, in this order: `v` to the data-port output register, the RS mask to the
control set register, the WR mask to the control reset register, the WR mask
to the control set register. With the control set register distinct from the
data register, RS is high after the two writes that precede the first strobe
fall. -/
theorem writeData_sequence (P : PinPackage) (d : Gpio16BitAccessMode) (v : Nat)
    (hv : v < 2 ^ 16) :
    writeData P d v
      = [ Event.store d._portOutputRegister v,
          Event.store d._controlSetAddress P.Pin_RS,
          Event.store d._controlResetAddress P.Pin_WR,
          Event.store d._controlSetAddress P.Pin_WR ]
    ∧ (writeData P d v).length = 4
    ∧ (writeData P d v).drop 2 = [strobeLow P d, strobeHigh P d]
    ∧ (d._controlSetAddress ≠ d._portOutputRegister →
        ∀ b : Bus, (Bus.run P d b ((writeData P d v).take 2)).high P.Pin_RS) := by
  have hmod : v % 2 ^ 16 = v := Nat.mod_eq_of_lt hv
  refine ⟨by simp only [writeData, hmod], rfl, rfl, ?_⟩
  intro h b
  exact Bus.high_after_set P d _ _ h

/-- Witness of C5 at `v = 0xF800`. -/
theorem writeData_sequence_witness :
    0xF800 < 2 ^ 16
    ∧ writeData examplePackage exampleDriver 0xF800
        = [ Event.store 0x48000814 0xF800, Event.store 0x48000418 0x0004,
            Event.store 0x48000428 0x0002, Event.store 0x48000418 0x0002 ] :=
  ⟨by decide, (writeData_sequence examplePackage exampleDriver 0xF800 (by decide)).1⟩

/-- C6: for every argument `v`, `writeDataAgain(v)` performs exactly one strobe
pulse (the WR mask to the control reset register, then to the control set
register) and nothing else, whatever `v` is. With the data register distinct
from the two control registers it is written zero times and keeps its content;
with the WR and RS masks disjoint the RS line keeps its level. -/
theorem writeDataAgain_sequence (P : PinPackage) (d : Gpio16BitAccessMode) (v : Nat) :
    writeDataAgain P d v = [strobeLow P d, strobeHigh P d]
    ∧ (writeDataAgain P d v).length = 2
    ∧ pulseCount (strobeLow P d) (strobeHigh P d) (writeDataAgain P d v) = 1
    ∧ (∀ v2 : Nat, writeDataAgain P d v2 = writeDataAgain P d v)
    ∧ (d._portOutputRegister ≠ d._controlSetAddress →
        d._portOutputRegister ≠ d._controlResetAddress →
        dataPortWrites d (writeDataAgain P d v) = 0
        ∧ ∀ b : Bus, (Bus.run P d b (writeDataAgain P d v)).data = b.data)
    ∧ (P.Pin_RS &&& P.Pin_WR = 0 →
        ∀ b : Bus, (Bus.run P d b (writeDataAgain P d v)).control &&& P.Pin_RS
          = b.control &&& P.Pin_RS) := by
  refine ⟨rfl, rfl, ?_, fun _ => rfl, ?_, ?_⟩
  · exact pulseCount_scan_pulses P d v 1
  · intro h1 h2
    exact ⟨dataPortWrites_writeDataAgainTimes P d v 1 h1 h2,
      fun b => Bus.data_writeDataAgainTimes P d v 1 h1 h2 b⟩
  · intro h b
    show (Bus.apply P d (Bus.apply P d b (Event.store _ _)) (Event.store _ _)).control &&& _ = _
    rw [Bus.apply_store_control_disjoint P d _ _ _ _ h,
      Bus.apply_store_control_disjoint P d _ _ _ _ h]

/-- Witness of C6: on the example object the data register is not written and
RS keeps its level. -/
theorem writeDataAgain_sequence_witness :
    writeDataAgain examplePackage exampleDriver 0x1234
      = [Event.store 0x48000428 0x0002, Event.store 0x48000418 0x0002]
    ∧ dataPortWrites exampleDriver (writeDataAgain examplePackage exampleDriver 0x1234) = 0
    ∧ (∀ b : Bus,
        (Bus.run examplePackage exampleDriver b
          (writeDataAgain examplePackage exampleDriver 0x1234)).control
            &&& examplePackage.Pin_RS = b.control &&& examplePackage.Pin_RS) :=
  have h := writeDataAgain_sequence examplePackage exampleDriver 0x1234
  ⟨h.1, (h.2.2.2.2.1 (by decide) (by decide)).1, h.2.2.2.2.2 (by decide)⟩

/-- C10: the register writes of `writeCommand(cmd, param)` are those of
`writeCommand(cmd)` followed by those of `writeData(param)`, with nothing
before, between or after: eight writes for 16-bit arguments. -/
theorem writeCommandParameter_sequence (P : PinPackage) (d : Gpio16BitAccessMode)
    (cmd param : Nat) :
    writeCommandParameter P d cmd param = writeCommand P d cmd ++ writeData P d param
    ∧ (writeCommandParameter P d cmd param).length
        = (writeCommand P d cmd).length + (writeData P d param).length
    ∧ (cmd < 2 ^ 16 → param < 2 ^ 16 →
        writeCommandParameter P d cmd param
          = [ Event.store d._portOutputRegister cmd,
              Event.store d._controlResetAddress d._rs,
              Event.store d._controlResetAddress d._wr,
              Event.store d._controlSetAddress d._wr,
              Event.store d._portOutputRegister param,
              Event.store d._controlSetAddress P.Pin_RS,
              Event.store d._controlResetAddress P.Pin_WR,
              Event.store d._controlSetAddress P.Pin_WR ]) := by
  refine ⟨rfl, rfl, ?_⟩
  intro hc hp
  simp only [writeCommandParameter, writeCommand, writeData, Nat.mod_eq_of_lt hc,
    Nat.mod_eq_of_lt hp, List.cons_append, List.nil_append]

/-- Witness of C10 at `cmd = 0x36`, `param = 0x48`. -/
theorem writeCommandParameter_sequence_witness :
    writeCommandParameter examplePackage exampleDriver 0x36 0x48
      = [ Event.store 0x48000814 0x36, Event.store 0x48000428 0x0004,
          Event.store 0x48000428 0x0002, Event.store 0x48000418 0x0002,
          Event.store 0x48000814 0x48, Event.store 0x48000418 0x0004,
          Event.store 0x48000428 0x0002, Event.store 0x48000418 0x0002 ] :=
  (writeCommandParameter_sequence examplePackage exampleDriver 0x36 0x48).2.2
    (by decide) (by decide)

/-! ## `rawTransfer` -/

theorem rawTransfer_loop_eq (P : PinPackage) (d : Gpio16BitAccessMode) :
    ∀ (buffer : List Nat) (n : Nat), n ≤ buffer.length →
      rawTransfer.loop P d buffer n = some (writeDataEach P d (buffer.take n)) := by
  intro buffer
  induction buffer with
  | nil =>
    intro n hn
    have h0 : n = 0 := by simpa using hn
    subst h0; rfl
  | cons w ws ih =>
    intro n hn
    cases n with
    | zero => rfl
    | succ n =>
      have hle : n ≤ ws.length := by simpa using hn
      simp only [rawTransfer.loop, ih n hle, List.take_succ_cons, writeDataEach]

theorem writeDataEach_length (P : PinPackage) (d : Gpio16BitAccessMode) (ws : List Nat) :
    (writeDataEach P d ws).length = 4 * ws.length := by
  induction ws with
  | nil => rfl
  | cons w ws ih =>
    simp only [writeDataEach, writeData, List.length_append, List.length_cons,
      List.length_nil, ih]
    omega

theorem dataPortValues_writeDataEach (P : PinPackage) (d : Gpio16BitAccessMode)
    (h1 : d._portOutputRegister ≠ d._controlSetAddress)
    (h2 : d._portOutputRegister ≠ d._controlResetAddress) (ws : List Nat)
    (hws : ∀ w ∈ ws, w < 2 ^ 16) :
    dataPortValues d (writeDataEach P d ws) = ws := by
  induction ws with
  | nil => rfl
  | cons w ws ih =>
    have hw : w % 2 ^ 16 = w := Nat.mod_eq_of_lt (hws w (List.mem_cons_self _ _))
    have ih2 := ih (fun x hx => hws x (List.mem_cons_of_mem _ hx))
    show dataPortValues d
      (Event.store d._portOutputRegister (w % 2 ^ 16) :: Event.store d._controlSetAddress P.Pin_RS
        :: Event.store d._controlResetAddress P.Pin_WR
        :: Event.store d._controlSetAddress P.Pin_WR :: writeDataEach P d ws) = _
    simp only [dataPortValues, if_true, if_neg (Ne.symm h1), if_neg (Ne.symm h2), hw, ih2]

theorem pulseCount_writeDataEach (P : PinPackage) (d : Gpio16BitAccessMode)
    (h1 : d._portOutputRegister ≠ d._controlResetAddress)
    (h2 : d._controlSetAddress ≠ d._controlResetAddress) (ws : List Nat) :
    pulseCount.scan (strobeLow P d) (strobeHigh P d) false (writeDataEach P d ws)
      = ws.length := by
  induction ws with
  | nil => rfl
  | cons w ws ih =>
    have e1 : Event.store d._portOutputRegister (w % 2 ^ 16) ≠ strobeLow P d := by
      intro h; injection h with ha _; exact h1 ha
    have e2 : Event.store d._controlSetAddress P.Pin_RS ≠ strobeLow P d := by
      intro h; injection h with ha _; exact h2 ha
    show pulseCount.scan _ _ false
      (Event.store d._portOutputRegister (w % 2 ^ 16) :: Event.store d._controlSetAddress P.Pin_RS
        :: strobeLow P d :: strobeHigh P d :: writeDataEach P d ws) = _
    rw [pulseCount_scan_skip _ _ _ _ e1, pulseCount_scan_skip _ _ _ _ e2]
    simp [pulseCount.scan, ih]

/-- C7: for every buffer of 16-bit words and every `n` not exceeding its
length (and in the uint32 range), `rawTransfer(buffer, n)` returns, and its
register writes are the concatenation, in array order, of those of
`writeData(buffer[i])` for `i = 0..n-1`: `4 * n` writes; with the three
registers at different addresses the values written to the data port are
`buffer[0], ..., buffer[n-1]` in that order and there are exactly `n` strobe
pulses. For `n = 0` there is no register write at all. -/
theorem rawTransfer_sequence (P : PinPackage) (d : Gpio16BitAccessMode)
    (buffer : List Nat) (n : Nat) (hn : n ≤ buffer.length) (h32 : n < 2 ^ 32)
    (hwords : ∀ w ∈ buffer, w < 2 ^ 16) :
    rawTransfer P d buffer n = some (writeDataEach P d (buffer.take n))
    ∧ (∀ (w : Nat) (ws : List Nat), w < 2 ^ 16 →
        writeDataEach P d (w :: ws)
          = [ Event.store d._portOutputRegister w,
              Event.store d._controlSetAddress P.Pin_RS,
              strobeLow P d, strobeHigh P d ] ++ writeDataEach P d ws)
    ∧ (writeDataEach P d (buffer.take n)).length = 4 * n
    ∧ (d._portOutputRegister ≠ d._controlSetAddress →
        d._portOutputRegister ≠ d._controlResetAddress →
        d._controlSetAddress ≠ d._controlResetAddress →
        dataPortValues d (writeDataEach P d (buffer.take n)) = buffer.take n
        ∧ (buffer.take n).length = n
        ∧ pulseCount (strobeLow P d) (strobeHigh P d) (writeDataEach P d (buffer.take n)) = n)
    ∧ (n = 0 → rawTransfer P d buffer n = some []) := by
  have hmod : n % 2 ^ 32 = n := Nat.mod_eq_of_lt h32
  have hlen : (buffer.take n).length = n := by
    rw [List.length_take]; omega
  have hmain : rawTransfer P d buffer n = some (writeDataEach P d (buffer.take n)) := by
    simp only [rawTransfer, hmod, rawTransfer_loop_eq P d buffer n hn]
  refine ⟨hmain, ?_, ?_, ?_, ?_⟩
  · intro w ws hw
    simp only [writeDataEach, writeData, Nat.mod_eq_of_lt hw, strobeLow, strobeHigh]
  · rw [writeDataEach_length, hlen]
  · intro h1 h2 h3
    refine ⟨dataPortValues_writeDataEach P d h1 h2 _
      (fun w hw => hwords w (List.mem_of_mem_take hw)), hlen, ?_⟩
    show pulseCount.scan _ _ false _ = n
    rw [pulseCount_writeDataEach P d h2 h3, hlen]
  · intro h0
    subst h0
    rw [hmain]
    rfl

/-- Witness of C7: two of the three words of a buffer. -/
theorem rawTransfer_sequence_witness :
    (2 ≤ [0x0001, 0xFFFF, 0x1234].length ∧ 2 < 2 ^ 32
      ∧ ∀ w ∈ [0x0001, 0xFFFF, 0x1234], w < 2 ^ 16)
    ∧ rawTransfer examplePackage exampleDriver [0x0001, 0xFFFF, 0x1234] 2
        = some (writeDataEach examplePackage exampleDriver [0x0001, 0xFFFF]) :=
  ⟨⟨by decide, by decide, by decide⟩,
   (rawTransfer_sequence examplePackage exampleDriver [0x0001, 0xFFFF, 0x1234] 2
      (by decide) (by decide) (by decide)).1⟩

/-! ## `reset` -/

/-- C8: `reset()` produces exactly the sequence wait 10, reset line high,
wait 5, reset line low, wait 50, reset line high, wait 50. The delays add up to
115 ms, which is at least 105 ms; the reset line is left high; there is no
register store, the data port keeps its content and every control line outside
the reset mask keeps its level. -/
theorem reset_sequence (P : PinPackage) (d : Gpio16BitAccessMode) :
    reset P d
      = [ Event.delay 10,
          Event.setBits P.Port_CONTROL P.Pin_RESET,
          Event.delay 5,
          Event.resetBits P.Port_CONTROL P.Pin_RESET,
          Event.delay 50,
          Event.setBits P.Port_CONTROL P.Pin_RESET,
          Event.delay 50 ]
    ∧ totalDelay (reset P d) = 115
    ∧ 105 ≤ totalDelay (reset P d)
    ∧ (∀ b : Bus, (Bus.run P d b (reset P d)).high P.Pin_RESET)
    ∧ (∀ addr val : Nat, Event.store addr val ∉ reset P d)
    ∧ dataPortWrites d (reset P d) = 0
    ∧ (∀ b : Bus, (Bus.run P d b (reset P d)).data = b.data)
    ∧ (∀ mask : Nat, mask &&& P.Pin_RESET = 0 →
        ∀ b : Bus, (Bus.run P d b (reset P d)).control &&& mask = b.control &&& mask) := by
  refine ⟨rfl, rfl, by show (105 : Nat) ≤ 115; decide, ?_, ?_, rfl, ?_, ?_⟩
  · intro b
    simp only [reset, Bus.run, Bus.apply, if_true, Bus.high]
    exact or_and_self_mask _ _
  · intro addr val h
    simp [reset] at h
  · intro b
    simp only [reset, Bus.run, Bus.apply, if_true]
  · intro mask h b
    simp only [reset, Bus.run, Bus.apply, if_true]
    rw [or_and_disjoint _ _ _ h, clear_and_disjoint _ _ _ h, or_and_disjoint _ _ _ h]

/-! ## The constructor -/

set_option maxRecDepth 1000000 in
theorem lineCount_three_fin : ∀ a b c : Fin 16, a ≠ b → a ≠ c → b ≠ c →
    lineCount (2 ^ a.val ||| 2 ^ b.val ||| 2 ^ c.val) = 3 := by
  decide

theorem lineCount_three (a b c : Nat) (ha : a < 16) (hb : b < 16) (hc : c < 16)
    (hab : a ≠ b) (hac : a ≠ c) (hbc : b ≠ c) :
    lineCount (2 ^ a ||| 2 ^ b ||| 2 ^ c) = 3 :=
  lineCount_three_fin ⟨a, ha⟩ ⟨b, hb⟩ ⟨c, hc⟩ (by simpa using hab) (by simpa using hac)
    (by simpa using hbc)

theorem testBit_three (a b c i : Nat) :
    (2 ^ a ||| 2 ^ b ||| 2 ^ c).testBit i = true ↔ (i = a ∨ i = b ∨ i = c) := by
  simp only [Nat.testBit_or, Nat.testBit_two_pow, Bool.or_eq_true, decide_eq_true_eq]
  constructor
  · rintro ((h | h) | h)
    · exact Or.inl h.symm
    · exact Or.inr (Or.inl h.symm)
    · exact Or.inr (Or.inr h.symm)
  · rintro (h | h | h)
    · exact Or.inl (Or.inl h.symm)
    · exact Or.inl (Or.inr h.symm)
    · exact Or.inr h.symm

/-- C9: for a pin package whose write-strobe, register-select and reset pins
are three distinct single bits (and whose register addresses fit in 32 bits),
the constructor configures the 16 lines of mask `0xffff` of the data port and
exactly those 3 lines of the control port as outputs, 19 lines in all, and then
sets the write-strobe high, without any register store of a transaction. The
stored masks are the WR and RS pins of the package, the stored addresses are
the control port base plus the set and reset register offsets and the data
port base plus the output register offset. -/
theorem construct_configures_bus (mcu : Mcu) (G : GPIO_TypeDef) (P : PinPackage)
    (jump0 wr rs rst : Nat) (hwr : wr < 16) (hrs : rs < 16) (hrst : rst < 16)
    (hWR : P.Pin_WR = 2 ^ wr) (hRS : P.Pin_RS = 2 ^ rs) (hRESET : P.Pin_RESET = 2 ^ rst)
    (h1 : rs ≠ wr) (h2 : rs ≠ rst) (h3 : wr ≠ rst)
    (hset : P.Port_CONTROL + setOffset mcu G < 2 ^ 32)
    (hreset : P.Port_CONTROL + resetOffset mcu G < 2 ^ 32)
    (hdata : P.Port_DATA + G.ODR < 2 ^ 32) :
    (construct mcu G P jump0).2
      = [ Event.initialise P.Port_DATA 0xffff GpioModeType.OUTPUT,
          Event.initialise P.Port_CONTROL (P.Pin_RS ||| P.Pin_WR ||| P.Pin_RESET)
            GpioModeType.OUTPUT,
          Event.setBits P.Port_CONTROL P.Pin_WR ]
    ∧ lineCount 0xffff = 16
    ∧ lineCount (P.Pin_RS ||| P.Pin_WR ||| P.Pin_RESET) = 3
    ∧ (∀ i : Nat, (P.Pin_RS ||| P.Pin_WR ||| P.Pin_RESET).testBit i = true
        ↔ (i = rs ∨ i = wr ∨ i = rst))
    ∧ configuredOutputs (construct mcu G P jump0).2 = 19
    ∧ (∀ addr val : Nat, Event.store addr val ∉ (construct mcu G P jump0).2)
    ∧ (∀ b : Bus,
        (Bus.run P (construct mcu G P jump0).1 b (construct mcu G P jump0).2).high P.Pin_WR)
    ∧ (construct mcu G P jump0).1._wr = P.Pin_WR
    ∧ (construct mcu G P jump0).1._rs = P.Pin_RS
    ∧ (construct mcu G P jump0).1._controlSetAddress = P.Port_CONTROL + setOffset mcu G
    ∧ (construct mcu G P jump0).1._controlResetAddress = P.Port_CONTROL + resetOffset mcu G
    ∧ (construct mcu G P jump0).1._portOutputRegister = P.Port_DATA + G.ODR := by
  have h16 : lineCount 0xffff = 16 := by decide
  have h3l : lineCount (P.Pin_RS ||| P.Pin_WR ||| P.Pin_RESET) = 3 := by
    rw [hWR, hRS, hRESET]
    exact lineCount_three rs wr rst hrs hwr hrst h1 h2 h3
  have hwr16 : P.Pin_WR < 2 ^ 16 := by
    rw [hWR]; exact Nat.pow_lt_pow_right (by decide) hwr
  have hrs16 : P.Pin_RS < 2 ^ 16 := by
    rw [hRS]; exact Nat.pow_lt_pow_right (by decide) hrs
  refine ⟨rfl, h16, h3l, ?_, ?_, ?_, ?_, ?_, ?_, ?_, ?_, ?_⟩
  · intro i
    rw [hWR, hRS, hRESET]
    exact testBit_three rs wr rst i
  · show lineCount 0xffff + (lineCount (P.Pin_RS ||| P.Pin_WR ||| P.Pin_RESET) + 0) = 19
    rw [h16, h3l]
  · intro addr val h
    simp [construct] at h
  · intro b
    simp only [construct, Bus.run, Bus.apply, if_true, Bus.high]
    exact or_and_self_mask _ _
  · exact Nat.mod_eq_of_lt hwr16
  · exact Nat.mod_eq_of_lt hrs16
  · cases mcu <;> exact Nat.mod_eq_of_lt hset
  · cases mcu <;> exact Nat.mod_eq_of_lt hreset
  · exact Nat.mod_eq_of_lt hdata

/-- Witness of C9: the example package on an F0. -/
theorem construct_configures_bus_witness :
    ((1 < 16 ∧ 2 < 16 ∧ 0 < 16)
      ∧ (examplePackage.Pin_WR = 2 ^ 1 ∧ examplePackage.Pin_RS = 2 ^ 2
          ∧ examplePackage.Pin_RESET = 2 ^ 0)
      ∧ (2 ≠ 1 ∧ 2 ≠ 0 ∧ 1 ≠ 0)
      ∧ examplePackage.Port_CONTROL + setOffset Mcu.F0 exampleGpio < 2 ^ 32
      ∧ examplePackage.Port_CONTROL + resetOffset Mcu.F0 exampleGpio < 2 ^ 32
      ∧ examplePackage.Port_DATA + exampleGpio.ODR < 2 ^ 32)
    ∧ configuredOutputs (construct Mcu.F0 exampleGpio examplePackage 0).2 = 19
    ∧ exampleDriver._controlSetAddress = 0x48000400 + 0x18
    ∧ exampleDriver._controlResetAddress = 0x48000400 + 0x28
    ∧ exampleDriver._portOutputRegister = 0x48000800 + 0x14 :=
  have h := construct_configures_bus Mcu.F0 exampleGpio examplePackage 0 1 2 0
    (by decide) (by decide) (by decide) (by decide) (by decide) (by decide)
    (by decide) (by decide) (by decide) (by decide) (by decide) (by decide)
  ⟨⟨⟨by decide, by decide, by decide⟩, ⟨by decide, by decide, by decide⟩,
    ⟨by decide, by decide, by decide⟩, by decide, by decide, by decide⟩,
   h.2.2.2.2.1, h.2.2.2.2.2.2.2.2.2.1, h.2.2.2.2.2.2.2.2.2.2.1, h.2.2.2.2.2.2.2.2.2.2.2⟩


/-! ## The write-strobe across the operations -/

/-- A sequence of events that ends with the strobe-high write leaves the
write-strobe high. -/
theorem Bus.high_run_ending_high (P : PinPackage) (d : Gpio16BitAccessMode)
    (h : d._controlSetAddress ≠ d._portOutputRegister) (b : Bus) (events : List Event) :
    (Bus.run P d b (events ++ [strobeHigh P d])).high P.Pin_WR := by
  rw [Bus.run_append]
  exact Bus.high_after_set P d _ _ h

theorem Bus.high_writeData (P : PinPackage) (d : Gpio16BitAccessMode)
    (h : d._controlSetAddress ≠ d._portOutputRegister) (b : Bus) (v : Nat) :
    (Bus.run P d b (writeData P d v)).high P.Pin_WR :=
  Bus.high_run_ending_high P d h b
    [Event.store d._portOutputRegister (v % 2 ^ 16), Event.store d._controlSetAddress P.Pin_RS,
     Event.store d._controlResetAddress P.Pin_WR]

theorem Bus.high_writeDataEach (P : PinPackage) (d : Gpio16BitAccessMode)
    (h : d._controlSetAddress ≠ d._portOutputRegister) (ws : List Nat) :
    ∀ b : Bus, b.high P.Pin_WR → (Bus.run P d b (writeDataEach P d ws)).high P.Pin_WR := by
  induction ws with
  | nil => intro b hb; exact hb
  | cons w ws ih =>
    intro b _
    show (Bus.run P d b (writeData P d w ++ writeDataEach P d ws)).high P.Pin_WR
    rw [Bus.run_append]
    exact ih _ (Bus.high_writeData P d h b w)

theorem Bus.high_reset (P : PinPackage) (d : Gpio16BitAccessMode) (b : Bus)
    (hb : b.high P.Pin_WR) : (Bus.run P d b (reset P d)).high P.Pin_WR := by
  have hc : (Bus.run P d b (reset P d)).control
      = ((b.control ||| P.Pin_RESET) ^^^ ((b.control ||| P.Pin_RESET) &&& P.Pin_RESET))
          ||| P.Pin_RESET := by
    simp only [reset, Bus.run, Bus.apply, if_true]
  unfold Bus.high at hb ⊢
  rw [hc]
  apply Nat.eq_of_testBit_eq
  intro i
  have hi := congrArg (fun x => x.testBit i) hb
  simp only [Nat.testBit_and, Nat.testBit_or, Nat.testBit_xor] at hi ⊢
  cases hc : b.control.testBit i <;> cases hr : P.Pin_RESET.testBit i <;>
    cases hw : P.Pin_WR.testBit i <;> simp_all

/-- C11: write-strobe idle-high is preserved by every operation. For an object
whose stored WR mask is the WR pin of the package and whose control set
register is not the data register, if the write-strobe is high before a call of
`writeCommand` (either overload), `writeData`, `writeDataAgain`,
`writeMultiData` (any count in the uint32 range, 0 included), `rawTransfer`
(any length within the buffer, 0 included) or `reset`, then the call returns
and the write-strobe is high after it; the constructor leaves it high. -/
theorem write_strobe_idle_high (P : PinPackage) (d : Gpio16BitAccessMode)
    (hwr : d._wr = P.Pin_WR) (hreg : d._controlSetAddress ≠ d._portOutputRegister)
    (b : Bus) (hb : b.high P.Pin_WR) :
    (∀ cmd : Nat, (Bus.run P d b (writeCommand P d cmd)).high P.Pin_WR)
    ∧ (∀ cmd param : Nat, (Bus.run P d b (writeCommandParameter P d cmd param)).high P.Pin_WR)
    ∧ (∀ v : Nat, (Bus.run P d b (writeData P d v)).high P.Pin_WR)
    ∧ (∀ v : Nat, (Bus.run P d b (writeDataAgain P d v)).high P.Pin_WR)
    ∧ (∀ codeBase count v : Nat, codeBase % 2 = 0 →
        codeBase + 2 * Thumb.finished < 2 ^ 32 → count < 2 ^ 32 →
        ∃ events, writeMultiData P d codeBase count v = some events
          ∧ (Bus.run P d b events).high P.Pin_WR)
    ∧ (∀ (buffer : List Nat) (n : Nat), n ≤ buffer.length → n < 2 ^ 32 →
        ∃ events, rawTransfer P d buffer n = some events
          ∧ (Bus.run P d b events).high P.Pin_WR)
    ∧ (Bus.run P d b (reset P d)).high P.Pin_WR
    ∧ (∀ (mcu : Mcu) (G : GPIO_TypeDef) (jump0 : Nat) (b0 : Bus),
        (Bus.run P d b0 (construct mcu G P jump0).2).high P.Pin_WR) := by
  refine ⟨?_, ?_, ?_, ?_, ?_, ?_, ?_, ?_⟩
  · intro cmd
    have h := Bus.high_run_ending_high P d hreg b
      [Event.store d._portOutputRegister (cmd % 2 ^ 16),
       Event.store d._controlResetAddress d._rs, Event.store d._controlResetAddress d._wr]
    simpa only [writeCommand, strobeHigh, hwr, List.cons_append, List.nil_append] using h
  · intro cmd param
    show (Bus.run P d b (writeCommand P d cmd ++ writeData P d param)).high P.Pin_WR
    rw [Bus.run_append]
    exact Bus.high_writeData P d hreg _ param
  · intro v
    exact Bus.high_writeData P d hreg b v
  · intro v
    exact Bus.high_run_ending_high P d hreg b [Event.store d._controlResetAddress P.Pin_WR]
  · intro codeBase count v hcb hfit hcount
    exact ⟨_, writeMultiData_eq P d codeBase count v hcb hfit hcount,
      Bus.high_writeMultiData_trace P d v count hreg b hb⟩
  · intro buffer n hn h32
    refine ⟨writeDataEach P d (buffer.take n), ?_, Bus.high_writeDataEach P d hreg _ b hb⟩
    simp only [rawTransfer, Nat.mod_eq_of_lt h32, rawTransfer_loop_eq P d buffer n hn]
  · exact Bus.high_reset P d b hb
  · intro mcu G jump0 b0
    simp only [construct, Bus.run, Bus.apply, if_true, Bus.high]
    exact or_and_self_mask _ _

/-- Witness of C11: the example object, with the strobe high and RS low. -/
theorem write_strobe_idle_high_witness :
    (exampleDriver._wr = examplePackage.Pin_WR
      ∧ exampleDriver._controlSetAddress ≠ exampleDriver._portOutputRegister
      ∧ Bus.high { data := 0, control := 0x0002 } examplePackage.Pin_WR)
    ∧ (Bus.run examplePackage exampleDriver { data := 0, control := 0x0002 }
        (writeCommand examplePackage exampleDriver 0x2C)).high examplePackage.Pin_WR
    ∧ (Bus.run examplePackage exampleDriver { data := 0, control := 0x0002 }
        (reset examplePackage exampleDriver)).high examplePackage.Pin_WR :=
  have h := write_strobe_idle_high examplePackage exampleDriver (by decide) (by decide)
    { data := 0, control := 0x0002 } (by decide)
  ⟨⟨by decide, by decide, by decide⟩, h.1 0x2C, h.2.2.2.2.2.2.1⟩


/-! ## The strobe protocol inside the operations -/

theorem StrobeSafe.nil (P : PinPackage) (d : Gpio16BitAccessMode) : StrobeSafe P d [] :=
  ⟨trivial, fun _ _ => trivial⟩

/-- An event that is not the strobe-low write and keeps a high strobe high may
be put in front of a safe sequence. -/
theorem StrobeSafe.skip (P : PinPackage) (d : Gpio16BitAccessMode) (e : Event)
    (rest : List Event) (hne : e ≠ strobeLow P d)
    (hkeep : ∀ b : Bus, b.high P.Pin_WR → (Bus.apply P d b e).high P.Pin_WR)
    (hrest : StrobeSafe P d rest) : StrobeSafe P d (e :: rest) := by
  refine ⟨⟨fun h => absurd h hne, hrest.1⟩, ?_⟩
  intro b hb
  exact ⟨fun h => absurd hb h, hrest.2 _ (hkeep b hb)⟩

/-- A strobe pulse may be put in front of a safe sequence. -/
theorem StrobeSafe.pulse (P : PinPackage) (d : Gpio16BitAccessMode) (hw : Wired P d)
    (rest : List Event) (hrest : StrobeSafe P d rest) :
    StrobeSafe P d (strobeLow P d :: strobeHigh P d :: rest) := by
  obtain ⟨_, _, _, hdisj, h1, _, h3⟩ := hw
  have hne : strobeHigh P d ≠ strobeLow P d := by
    intro h; injection h with ha _; exact h3 ha
  refine ⟨⟨fun _ => rfl, fun h => absurd h hne, hrest.1⟩, ?_⟩
  intro b hb
  have hhigh : (Bus.apply P d (Bus.apply P d b (strobeLow P d)) (strobeHigh P d)).high P.Pin_WR :=
    Bus.high_after_set P d _ _ (Ne.symm h1)
  refine ⟨fun h => absurd hb h, ⟨fun _ => ⟨hhigh, ?_, ?_⟩, hrest.2 _ hhigh⟩⟩
  · exact Bus.apply_store_data_of_ne P d _ _ _ (Ne.symm h1)
  · exact Bus.apply_store_control_disjoint P d _ _ _ _ hdisj

/-- A store to the data register keeps the control lines. -/
theorem Bus.high_apply_data (P : PinPackage) (d : Gpio16BitAccessMode) (v mask : Nat)
    (b : Bus) (hb : b.high mask) :
    (Bus.apply P d b (Event.store d._portOutputRegister v)).high mask := by
  simpa only [Bus.apply, if_true, Bus.high] using hb

/-- A store of a mask that shares no line with `mask` keeps the lines of `mask`. -/
theorem Bus.high_apply_disjoint (P : PinPackage) (d : Gpio16BitAccessMode)
    (addr w mask : Nat) (h : mask &&& w = 0) (b : Bus) (hb : b.high mask) :
    (Bus.apply P d b (Event.store addr w)).high mask := by
  unfold Bus.high at hb ⊢
  rw [Bus.apply_store_control_disjoint P d b addr w mask h]
  exact hb

theorem StrobeSafe.writeDataAgainTimes (P : PinPackage) (d : Gpio16BitAccessMode)
    (hw : Wired P d) (v n : Nat) : StrobeSafe P d (writeDataAgainTimes P d v n) := by
  induction n with
  | zero => exact StrobeSafe.nil P d
  | succ n ih => exact StrobeSafe.pulse P d hw _ ih

/-- The two opening stores of a data transaction followed by a safe sequence. -/
theorem StrobeSafe.dataStores (P : PinPackage) (d : Gpio16BitAccessMode) (hw : Wired P d)
    (v : Nat) (rest : List Event) (hrest : StrobeSafe P d rest) :
    StrobeSafe P d (Event.store d._portOutputRegister v
      :: Event.store d._controlSetAddress P.Pin_RS :: rest) := by
  have hw2 := hw
  obtain ⟨_, _, _, hdisj, _, h2, h3⟩ := hw2
  have e1 : Event.store d._portOutputRegister v ≠ strobeLow P d := by
    intro h; injection h with ha _; exact h2 ha
  have e2 : Event.store d._controlSetAddress P.Pin_RS ≠ strobeLow P d := by
    intro h; injection h with ha _; exact h3 ha
  have hdisj2 : P.Pin_WR &&& P.Pin_RS = 0 := by rw [Nat.land_comm]; exact hdisj
  exact StrobeSafe.skip P d _ _ e1 (Bus.high_apply_data P d v _)
    (StrobeSafe.skip P d _ _ e2 (Bus.high_apply_disjoint P d _ _ _ hdisj2) hrest)

theorem StrobeSafe.writeData (P : PinPackage) (d : Gpio16BitAccessMode) (hw : Wired P d)
    (v : Nat) (rest : List Event) (hrest : StrobeSafe P d rest) :
    StrobeSafe P d (writeData P d v ++ rest) :=
  StrobeSafe.dataStores P d hw _ _ (StrobeSafe.pulse P d hw _ hrest)

theorem StrobeSafe.writeCommand (P : PinPackage) (d : Gpio16BitAccessMode) (hw : Wired P d)
    (cmd : Nat) (rest : List Event) (hrest : StrobeSafe P d rest) :
    StrobeSafe P d (writeCommand P d cmd ++ rest) := by
  have hw2 := hw
  obtain ⟨hwr, hrs, hnz, hdisj, _, h2, _⟩ := hw2
  have hdisj2 : P.Pin_WR &&& P.Pin_RS = 0 := by rw [Nat.land_comm]; exact hdisj
  have hne : P.Pin_RS ≠ P.Pin_WR := by
    intro h
    rw [h, Nat.and_self] at hdisj
    exact hnz hdisj
  have e1 : Event.store d._portOutputRegister (cmd % 2 ^ 16) ≠ strobeLow P d := by
    intro h; injection h with ha _; exact h2 ha
  have e2 : Event.store d._controlResetAddress P.Pin_RS ≠ strobeLow P d := by
    intro h; injection h with _ hv; exact hne hv
  show StrobeSafe P d (Event.store d._portOutputRegister (cmd % 2 ^ 16)
    :: Event.store d._controlResetAddress d._rs :: Event.store d._controlResetAddress d._wr
    :: Event.store d._controlSetAddress d._wr :: rest)
  rw [hwr, hrs]
  exact StrobeSafe.skip P d _ _ e1 (Bus.high_apply_data P d _ _)
    (StrobeSafe.skip P d _ _ e2 (Bus.high_apply_disjoint P d _ _ _ hdisj2)
      (StrobeSafe.pulse P d hw _ hrest))

theorem StrobeSafe.writeDataEach (P : PinPackage) (d : Gpio16BitAccessMode) (hw : Wired P d)
    (ws : List Nat) : StrobeSafe P d (writeDataEach P d ws) := by
  induction ws with
  | nil => exact StrobeSafe.nil P d
  | cons w ws ih => exact StrobeSafe.writeData P d hw w _ ih

/-- The discipline is not vacuous: a data-port write between the fall and the
rise of the strobe is rejected. -/
theorem Bus.strobeDiscipline_rejects_write_while_low :
    ¬ Bus.strobeDiscipline examplePackage exampleDriver { data := 0, control := 0x0002 }
        [ strobeLow examplePackage exampleDriver,
          Event.store exampleDriver._portOutputRegister 0x1234,
          strobeHigh examplePackage exampleDriver ]
    ∧ ¬ risesAfterFalls (strobeLow examplePackage exampleDriver)
        (strobeHigh examplePackage exampleDriver)
        [ strobeLow examplePackage exampleDriver,
          Event.store exampleDriver._portOutputRegister 0x1234,
          strobeHigh examplePackage exampleDriver ] := by
  decide

/-- C12: in the register writes of every operation each write that drives the
write-strobe low is immediately followed by the write that drives it high, and
while the strobe is low neither the data port nor register-select changes. For
an object wired to its package (`Wired`) this holds for `writeCommand` (both
overloads), `writeData`, `writeDataAgain`, `writeMultiData` (any count in the
uint32 range) and `rawTransfer` (any length within the buffer), for every
argument. -/
theorem strobe_fall_then_rise (P : PinPackage) (d : Gpio16BitAccessMode) (hw : Wired P d) :
    (∀ cmd : Nat, StrobeSafe P d (writeCommand P d cmd))
    ∧ (∀ cmd param : Nat, StrobeSafe P d (writeCommandParameter P d cmd param))
    ∧ (∀ v : Nat, StrobeSafe P d (writeData P d v))
    ∧ (∀ v : Nat, StrobeSafe P d (writeDataAgain P d v))
    ∧ (∀ codeBase count v : Nat, codeBase % 2 = 0 →
        codeBase + 2 * Thumb.finished < 2 ^ 32 → count < 2 ^ 32 →
        ∃ events, writeMultiData P d codeBase count v = some events ∧ StrobeSafe P d events)
    ∧ (∀ (buffer : List Nat) (n : Nat), n ≤ buffer.length → n < 2 ^ 32 →
        ∃ events, rawTransfer P d buffer n = some events ∧ StrobeSafe P d events) := by
  refine ⟨?_, ?_, ?_, ?_, ?_, ?_⟩
  · intro cmd
    have h := StrobeSafe.writeCommand P d hw cmd [] (StrobeSafe.nil P d)
    rwa [List.append_nil] at h
  · intro cmd param
    have h := StrobeSafe.writeCommand P d hw cmd _
      (StrobeSafe.writeData P d hw param [] (StrobeSafe.nil P d))
    rwa [List.append_nil] at h
  · intro v
    have h := StrobeSafe.writeData P d hw v [] (StrobeSafe.nil P d)
    rwa [List.append_nil] at h
  · intro v
    exact StrobeSafe.writeDataAgainTimes P d hw v 1
  · intro codeBase count v hcb hfit hcount
    exact ⟨_, writeMultiData_eq P d codeBase count v hcb hfit hcount,
      StrobeSafe.dataStores P d hw _ _ (StrobeSafe.writeDataAgainTimes P d hw v count)⟩
  · intro buffer n hn h32
    refine ⟨writeDataEach P d (buffer.take n), ?_, StrobeSafe.writeDataEach P d hw _⟩
    simp only [rawTransfer, Nat.mod_eq_of_lt h32, rawTransfer_loop_eq P d buffer n hn]

/-- Witness of C12: the example object is wired to the example package. -/
theorem strobe_fall_then_rise_witness :
    Wired examplePackage exampleDriver
    ∧ StrobeSafe examplePackage exampleDriver (writeData examplePackage exampleDriver 0xF800)
    ∧ ∃ events, writeMultiData examplePackage exampleDriver exampleCodeBase 81 0xF800 = some events
        ∧ StrobeSafe examplePackage exampleDriver events :=
  have h := strobe_fall_then_rise examplePackage exampleDriver (by decide)
  ⟨by decide, h.2.2.1 0xF800,
   h.2.2.2.2.1 exampleCodeBase 81 0xF800 (by decide) (by decide) (by decide)⟩

end Gpio16BitAccessMode

namespace Thumb

/-! ## Instruction-by-instruction execution of the main block -/

theorem stepN_succ_of {env : Env} {n : Nat} {s s' : Cpu} (h : stepN env n s = some s') :
    stepN env (n + 1) s = step env s' := by
  show (match stepN env n s with | none => none | some t => step env t) = _
  rw [h]

theorem stepN_add {env : Env} {a : Nat} {s s' : Cpu} (h : stepN env a s = some s') :
    ∀ b, stepN env (a + b) s = stepN env b s' := by
  intro b
  induction b with
  | zero => exact h
  | succ b ih =>
    show (match stepN env (a + b) s with | none => none | some t => step env t)
      = (match stepN env b s' with | none => none | some t => step env t)
    rw [ih]

theorem Env.pulses_length (env : Env) (n : Nat) : (env.pulses n).length = 2 * n := by
  induction n with
  | zero => rfl
  | succ n ih =>
    simp only [Env.pulses, List.length_append, List.length_cons, List.length_nil, ih]; omega

/-- The event at position `i` of a run of pulses. -/
theorem Env.pulses_getElem? (env : Env) : ∀ (n i : Nat), i < 2 * n →
    (env.pulses n)[i]?
      = some (Event.store (env.addr (if i % 2 = 0 then AddrOperand.creset
          else AddrOperand.cset)) env.wr) := by
  intro n
  induction n with
  | zero => intro i hi; omega
  | succ n ih =>
    intro i hi
    match i with
    | 0 => rfl
    | 1 => simp [Env.pulses, Env.addr]
    | i + 2 =>
      have h := ih i (by omega)
      have hmod : (i + 2) % 2 = i % 2 := by omega
      show (Event.store env.creset env.wr :: Event.store env.cset env.wr :: env.pulses n)[i + 2]?
        = _
      rw [List.getElem?_cons_succ, List.getElem?_cons_succ, h, hmod]

theorem Env.pulses_drop (env : Env) (a r : Nat) :
    (env.pulses (a + r)).drop (2 * a) = env.pulses r := by
  induction a with
  | zero => simp
  | succ a ih =>
    have h1 : a + 1 + r = (a + r) + 1 := by omega
    have h2 : 2 * (a + 1) = 2 * a + 1 + 1 := by omega
    rw [h1, h2]
    show List.drop (2 * a + 1 + 1)
      (Event.store env.creset env.wr :: Event.store env.cset env.wr :: env.pulses (a + r)) = _
    rw [List.drop_succ_cons, List.drop_succ_cons, ih]

set_option maxRecDepth 100000 in
theorem fetch_batch_at : ∀ j, j < 80 →
    mainBlock[2 + j]?
      = some (Instr.str_wr (if j % 2 = 0 then AddrOperand.creset else AddrOperand.cset)) := by
  decide

set_option maxRecDepth 100000 in
theorem fetch_tail_at : ∀ j, j < 78 →
    mainBlock[90 + j]?
      = some (Instr.str_wr (if j % 2 = 0 then AddrOperand.creset else AddrOperand.cset)) := by
  decide

/-- Executing `m` instructions inside a straight-line region of `n` toggle
pairs that starts at `b`, from offset `o`: the stores emitted are the events
`o .. o + m - 1` of the `n` pulses, the registers are left alone. -/
theorem stepN_region (env : Env) (b n : Nat)
    (hfetch : ∀ j, j < 2 * n →
      mainBlock[b + j]?
        = some (Instr.str_wr (if j % 2 = 0 then AddrOperand.creset else AddrOperand.cset)))
    (o hm jr : Nat) (c : Bool) (out : List Event) :
    ∀ m, o + m ≤ 2 * n →
      stepN env m ⟨b + o, hm, jr, c, out⟩
        = some ⟨b + o + m, hm, jr, c, out ++ ((env.pulses n).drop o).take m⟩ := by
  intro m
  induction m with
  | zero =>
    intro _
    show some _ = some _
    simp
  | succ m ih =>
    intro hle
    have hprev := ih (by omega)
    rw [stepN_succ_of hprev]
    have hf := hfetch (o + m) (by omega)
    have hs := step_str env
      (s := ⟨b + o + m, hm, jr, c, out ++ ((env.pulses n).drop o).take m⟩)
      (b := if (o + m) % 2 = 0 then AddrOperand.creset else AddrOperand.cset)
      (by show mainBlock[b + o + m]? = _; rw [Nat.add_assoc]; exact hf)
    rw [hs]
    have hel : ((env.pulses n).drop o)[m]?
        = some (Event.store (env.addr (if (o + m) % 2 = 0 then AddrOperand.creset
            else AddrOperand.cset)) env.wr) := by
      rw [List.getElem?_drop]
      exact Env.pulses_getElem? env n (o + m) (by omega)
    have htake : ((env.pulses n).drop o).take (m + 1)
        = ((env.pulses n).drop o).take m
          ++ [Event.store (env.addr (if (o + m) % 2 = 0 then AddrOperand.creset
            else AddrOperand.cset)) env.wr] := by
      rw [List.take_succ, hel]; rfl
    rw [htake, ← List.append_assoc]
    rfl


theorem stepN_step {env : Env} {n : Nat} {s s' s'' : Cpu} (h : stepN env n s = some s')
    (hs : step env s' = some s'') : stepN env (n + 1) s = some s'' := by
  rw [stepN_succ_of h, hs]

theorem take_pulses_all (env : Env) (n : Nat) : (env.pulses n).take (2 * n) = env.pulses n :=
  List.take_of_length_le (by rw [Env.pulses_length])

/-- The entry test takes two instructions. -/
theorem stepN_entry (env : Env) (hm j : Nat) (c : Bool) (out : List Event) :
    stepN env 2 ⟨0, hm, j, c, out⟩
      = some ⟨if 40 ≤ hm then batchloop else lastlot, hm, j, decide (40 ≤ hm), out⟩ := by
  have h0 : stepN env 0 ⟨0, hm, j, c, out⟩ = some ⟨0, hm, j, c, out⟩ := rfl
  have h1 := stepN_step h0 (step_cmp env (s := ⟨0, hm, j, c, out⟩) fetch_fixed.1)
  have h2 := stepN_step h1
    (step_blo env (s := ⟨0 + 1, hm, j, decide (40 ≤ hm), out⟩) fetch_fixed.2.1)
  rw [h2]
  refine congrArg some ?_
  by_cases h : 40 ≤ hm <;> simp [h, batchloop]

/-- The 80 stores of the batch. -/
theorem stepN_batch_stores (env : Env) (hm j : Nat) (c : Bool) (out : List Event) :
    ∀ m, m ≤ 80 →
      stepN env m ⟨batchloop, hm, j, c, out⟩
        = some ⟨batchloop + m, hm, j, c, out ++ (env.pulses 40).take m⟩ := by
  intro m hle
  have h := stepN_region env 2 40 fetch_batch_at 0 hm j c out m (by omega)
  simpa only [Nat.add_zero, List.drop_zero] using h

/-- One pass through the batch takes 83 instructions. -/
theorem stepN_batch (env : Env) (hm j : Nat) (c : Bool) (out : List Event)
    (h40 : 40 ≤ hm) (h32 : hm < 2 ^ 32) :
    stepN env 83 ⟨batchloop, hm, j, c, out⟩
      = some ⟨if 40 ≤ hm - 40 then batchloop else lastlot, hm - 40, j,
          decide (40 ≤ hm - 40), out ++ env.pulses 40⟩ := by
  have h80 := stepN_batch_stores env hm j c out 80 (Nat.le_refl _)
  rw [take_pulses_all env 40] at h80
  have hsub : (hm + 2 ^ 32 - 40) % 2 ^ 32 = hm - 40 := by omega
  have h81 := stepN_step h80
    (step_sub_howmuch env (s := ⟨82, hm, j, c, out ++ env.pulses 40⟩) fetch_fixed.2.2.1)
  have h82 := stepN_step h81
    (step_cmp env (s := ⟨82 + 1, (hm + 2 ^ 32 - 40) % 2 ^ 32, j, c, out ++ env.pulses 40⟩)
      fetch_fixed.2.2.2.1)
  have h83 := stepN_step h82
    (step_bhs env (s := ⟨82 + 1 + 1, (hm + 2 ^ 32 - 40) % 2 ^ 32, j,
      decide (40 ≤ (hm + 2 ^ 32 - 40) % 2 ^ 32), out ++ env.pulses 40⟩)
      fetch_fixed.2.2.2.2.1)
  rw [h83]
  refine congrArg some ?_
  rw [hsub]
  by_cases h : 40 ≤ hm - 40 <;>
    simp only [h, lastlot, batchloop, decide_True, decide_False, if_true, if_false,
      Bool.false_eq_true]

/-- Inside one pass the program counter advances by one per instruction, so
`batchloop` is visited once per pass. -/
theorem stepN_batch_pc (env : Env) (hm j : Nat) (c : Bool) (out : List Event) :
    ∀ m, m < 83 →
      ∃ s, stepN env m ⟨batchloop, hm, j, c, out⟩ = some s ∧ s.pc = batchloop + m := by
  intro m hlt
  by_cases h80 : m ≤ 80
  · exact ⟨_, stepN_batch_stores env hm j c out m h80, rfl⟩
  · have e80 := stepN_batch_stores env hm j c out 80 (Nat.le_refl _)
    have h81 := stepN_step e80
      (step_sub_howmuch env (s := ⟨82, hm, j, c, out ++ (env.pulses 40).take 80⟩)
        fetch_fixed.2.2.1)
    by_cases hm81 : m = 81
    · subst hm81
      exact ⟨_, h81, rfl⟩
    · have hm82 : m = 82 := by omega
      subst hm82
      have h82 := stepN_step h81
        (step_cmp env (s := ⟨82 + 1, (hm + 2 ^ 32 - 40) % 2 ^ 32, j, c,
          out ++ (env.pulses 40).take 80⟩) fetch_fixed.2.2.2.1)
      exact ⟨_, h82, rfl⟩

/-- After `i` passes, with more than `i` full batches to go at the start. -/
theorem stepN_iterations (env : Env) (j : Nat) (out : List Event) :
    ∀ (i hm : Nat), 40 * (i + 1) ≤ hm → hm < 2 ^ 32 →
      stepN env (83 * i) ⟨batchloop, hm, j, true, out⟩
        = some ⟨batchloop, hm - 40 * i, j, true, out ++ env.pulses (40 * i)⟩ := by
  intro i
  induction i with
  | zero =>
    intro hm _ _
    show some _ = some _
    simp [Env.pulses]
  | succ i ih =>
    intro hm h1 h2
    have hprev := ih hm (by omega) h2
    have hf : 83 * (i + 1) = 83 * i + 83 := by omega
    rw [hf, stepN_add hprev 83, stepN_batch env _ j _ _ (by omega) (by omega)]
    have hge : 40 ≤ hm - 40 * i - 40 := by omega
    have e1 : hm - 40 * i - 40 = hm - 40 * (i + 1) := by omega
    have e2 : 40 * (i + 1) = 40 * i + 40 := by omega
    rw [if_pos hge, decide_eq_true hge, e1, List.append_assoc, ← Env.pulses_add, ← e2]

/-- The start of pass `i`, for every `i` below `count / 40`. -/
theorem stepN_pass_start (env : Env) (count j : Nat) (c : Bool) (out : List Event)
    (hcount : count < 2 ^ 32) (i : Nat) (hi : i < count / 40) :
    stepN env (2 + 83 * i) ⟨0, count, j, c, out⟩
      = some ⟨batchloop, count - 40 * i, j, true, out ++ env.pulses (40 * i)⟩ := by
  have h40 : 40 ≤ count := by omega
  have he := stepN_entry env count j c out
  rw [if_pos h40, decide_eq_true h40] at he
  rw [stepN_add he (83 * i)]
  exact stepN_iterations env j out i count (by omega) hcount

/-- The remainder dispatch is reached after `count / 40` passes with
`count % 40` in `howmuch`. -/
theorem stepN_reach_lastlot (env : Env) (count j : Nat) (c : Bool) (out : List Event)
    (hcount : count < 2 ^ 32) :
    stepN env (2 + 83 * (count / 40)) ⟨0, count, j, c, out⟩
      = some ⟨lastlot, count % 40, j, false, out ++ env.pulses (40 * (count / 40))⟩ := by
  by_cases h40 : 40 ≤ count
  · obtain ⟨q, hq⟩ : ∃ q, count / 40 = q + 1 := ⟨count / 40 - 1, by omega⟩
    have hs := stepN_pass_start env count j c out hcount q (by omega)
    have hf : 2 + 83 * (count / 40) = (2 + 83 * q) + 83 := by omega
    rw [hf, stepN_add hs 83, stepN_batch env _ j _ _ (by omega) (by omega)]
    have hlt : ¬ 40 ≤ count - 40 * q - 40 := by omega
    have e1 : count - 40 * q - 40 = count % 40 := by omega
    have e2 : 40 * (count / 40) = 40 * q + 40 := by omega
    rw [if_neg hlt, decide_eq_false hlt, e1, List.append_assoc, ← Env.pulses_add, ← e2]
  · have hq : count / 40 = 0 := by omega
    have hr : count % 40 = count := by omega
    have he := stepN_entry env count j c out
    rw [if_neg h40, decide_eq_false h40] at he
    rw [hq, hr]
    show stepN env 2 _ = _
    rw [he]
    simp [Env.pulses]


/-- The five instructions of the remainder dispatch, one by one: no register
operation wraps around, and `bx` lands `r` toggle pairs before `finished`. -/
theorem stepN_dispatch (env : Env) (hcb : env.codeBase % 2 = 0)
    (hfit : env.codeBase + 2 * finished < 2 ^ 32)
    (r j : Nat) (c : Bool) (out : List Event) (hr : r < 40) :
    stepN env 1 ⟨lastlot, r, j, c, out⟩
      = some ⟨lastlot + 1, r, env.addrOf finished, c, out⟩
    ∧ stepN env 2 ⟨lastlot, r, j, c, out⟩
      = some ⟨lastlot + 2, 4 * r, env.addrOf finished, c, out⟩
    ∧ stepN env 3 ⟨lastlot, r, j, c, out⟩
      = some ⟨lastlot + 3, 4 * r, env.addrOf finished - 4 * r, c, out⟩
    ∧ stepN env 4 ⟨lastlot, r, j, c, out⟩
      = some ⟨lastlot + 4, 4 * r, env.addrOf finished - 4 * r + 1, c, out⟩
    ∧ stepN env 5 ⟨lastlot, r, j, c, out⟩
      = some ⟨finished - 2 * r, 4 * r, env.addrOf finished - 4 * r + 1, c, out⟩ := by
  have hfin : finished = 168 := rfl
  have haddr : env.addrOf finished = env.codeBase + 336 := by
    simp only [Env.addrOf, hfin]
  have hj1 : env.addrOf finished % 2 ^ 32 = env.addrOf finished := by
    rw [haddr]; rw [hfin] at hfit; omega
  have hh : r * 2 ^ 2 % 2 ^ 32 = 4 * r := by omega
  have hj2 : (env.addrOf finished + 2 ^ 32 - 4 * r) % 2 ^ 32 = env.addrOf finished - 4 * r := by
    rw [haddr]; rw [hfin] at hfit; omega
  have hj3 : (env.addrOf finished - 4 * r + 1) % 2 ^ 32 = env.addrOf finished - 4 * r + 1 := by
    rw [haddr]; rw [hfin] at hfit; omega
  have hj4 : env.addrOf finished - 4 * r + 1 = env.codeBase + 2 * (finished - 2 * r) + 1 := by
    rw [haddr, hfin]; omega
  have h0 : stepN env 0 ⟨lastlot, r, j, c, out⟩ = some ⟨85, r, j, c, out⟩ := rfl
  have s1 := step_ldr_jump env (s := ⟨85, r, j, c, out⟩) fetch_fixed.2.2.2.2.2.1
  rw [hj1] at s1
  have h1 := stepN_step h0 s1
  have s2 := step_lsl_howmuch env (s := ⟨85 + 1, r, env.addrOf finished, c, out⟩)
    fetch_fixed.2.2.2.2.2.2.1
  rw [hh] at s2
  have h2 := stepN_step h1 s2
  have s3 := step_sub_jump env (s := ⟨85 + 1 + 1, 4 * r, env.addrOf finished, c, out⟩)
    fetch_fixed.2.2.2.2.2.2.2.1
  rw [hj2] at s3
  have h3 := stepN_step h2 s3
  have s4 := step_add_jump env
    (s := ⟨85 + 1 + 1 + 1, 4 * r, env.addrOf finished - 4 * r, c, out⟩)
    fetch_fixed.2.2.2.2.2.2.2.2.1
  rw [hj3] at s4
  have h4 := stepN_step h3 s4
  have s5 := step_bx env
    (s := ⟨85 + 1 + 1 + 1 + 1, 4 * r, env.addrOf finished - 4 * r + 1, c, out⟩)
    (i := finished - 2 * r) fetch_fixed.2.2.2.2.2.2.2.2.2 hcb hj4 (by omega)
  have h5 := stepN_step h4 s5
  exact ⟨h1, h2, h3, h4, h5⟩

/-- Entered `r` toggle pairs before `finished`, the tail executes `2 * r`
stores, one pulse per pair, and falls through to `finished`. -/
theorem stepN_tail (env : Env) (r hm j : Nat) (c : Bool) (out : List Event) (hr : r < 40) :
    stepN env (2 * r) ⟨finished - 2 * r, hm, j, c, out⟩
      = some ⟨finished, hm, j, c, out ++ env.pulses r⟩ := by
  have h := stepN_region env 90 39 fetch_tail_at (2 * (39 - r)) hm j c out (2 * r) (by omega)
  have hpc : 90 + 2 * (39 - r) = finished - 2 * r := by simp only [finished]; omega
  have hend : finished - 2 * r + 2 * r = finished := by simp only [finished]; omega
  have h39 : 39 - r + r = 39 := by omega
  have hdrop : (env.pulses 39).drop (2 * (39 - r)) = env.pulses r := by
    have hd := Env.pulses_drop env (39 - r) r
    rw [h39] at hd
    exact hd
  rw [hpc, hend, hdrop, take_pulses_all] at h
  exact h

/-- The landing place of `bx`: inside the tail or at its end, and on the
first instruction (the strobe-low store) of a toggle pair. -/
theorem landing_on_pair (r : Nat) (hr : r < 40) :
    tailStart ≤ finished - 2 * r ∧ finished - 2 * r ≤ finished
    ∧ (finished - 2 * r - tailStart) % 2 = 0
    ∧ (finished - (finished - 2 * r)) / 2 = r
    ∧ (0 < r → mainBlock[finished - 2 * r]? = some (Instr.str_wr AddrOperand.creset)) := by
  have hfin : finished = 168 := rfl
  have hts : tailStart = 90 := rfl
  refine ⟨by omega, by omega, by omega, by omega, ?_⟩
  intro hpos
  have h := (fetch_tail (39 - r) (by omega)).1
  have e : 90 + 2 * (39 - r) = finished - 2 * r := by omega
  rw [e] at h
  exact h

end Thumb

namespace Gpio16BitAccessMode

/-- C13: for every uint32 `count`, with `q = count / 40` and `r = count % 40`
(so `r ≤ 39`), the main block of `writeMultiData` makes exactly `q` passes
through the 40-pair batch (pass `i` starts after `2 + 83 * i` instructions with
`count - 40 * i` left, and `batchloop` is visited only at the start of a pass)
and reaches the remainder dispatch with `r` in `howmuch`. There `r` shifted
left by 2 and the subtraction from the address of `finished` do not wrap; the
jump target, the end label minus `4 * r` bytes, is the start of the tail plus
`39 - r` toggle pairs of four bytes, inside the tail or at its end, on the
strobe-low store of a pair; from there exactly `r` pulses are emitted before
control falls through to `finished`. The block is assumed to sit at a
halfword-aligned address and to end inside the 32-bit address space. -/
theorem writeMultiData_remainder_dispatch (P : PinPackage) (d : Gpio16BitAccessMode)
    (codeBase count value : Nat) (hcb : codeBase % 2 = 0)
    (hfit : codeBase + 2 * Thumb.finished < 2 ^ 32) (hcount : count < 2 ^ 32) :
    (∀ fuel, writeMultiDataFuel fuel P d codeBase count value
      = match Thumb.run (mainEnv P d codeBase) fuel (mainStart P d count value) with
        | none => none
        | some s => some s.out)
    ∧ (count = 40 * (count / 40) + count % 40 ∧ count % 40 ≤ 39)
    ∧ (∀ i, i < count / 40 →
        Thumb.stepN (mainEnv P d codeBase) (2 + 83 * i) (mainStart P d count value)
          = some ⟨Thumb.batchloop, count - 40 * i, d._jump % 2 ^ 32, true,
              (mainStart P d count value).out ++ (mainEnv P d codeBase).pulses (40 * i)⟩)
    ∧ (∀ i m, i < count / 40 → m < 83 →
        ∃ s, Thumb.stepN (mainEnv P d codeBase) (2 + 83 * i + m) (mainStart P d count value)
            = some s ∧ s.pc = Thumb.batchloop + m)
    ∧ Thumb.stepN (mainEnv P d codeBase) (2 + 83 * (count / 40)) (mainStart P d count value)
        = some ⟨Thumb.lastlot, count % 40, d._jump % 2 ^ 32, false,
            (mainStart P d count value).out
              ++ (mainEnv P d codeBase).pulses (40 * (count / 40))⟩
    ∧ ((count % 40) * 2 ^ 2 < 2 ^ 32
        ∧ 4 * (count % 40) ≤ (mainEnv P d codeBase).addrOf Thumb.finished
        ∧ Thumb.jumpTarget (mainEnv P d codeBase) (count % 40) + 1 < 2 ^ 32)
    ∧ Thumb.stepN (mainEnv P d codeBase) (2 + 83 * (count / 40) + 4)
          (mainStart P d count value)
        = some ⟨Thumb.lastlot + 4, 4 * (count % 40),
            Thumb.jumpTarget (mainEnv P d codeBase) (count % 40) + 1, false,
            (mainStart P d count value).out
              ++ (mainEnv P d codeBase).pulses (40 * (count / 40))⟩
    ∧ (Thumb.jumpTarget (mainEnv P d codeBase) (count % 40)
          = (mainEnv P d codeBase).addrOf Thumb.tailStart + (39 - count % 40) * (2 * 2)
        ∧ Thumb.jumpTarget (mainEnv P d codeBase) (count % 40)
          = (mainEnv P d codeBase).addrOf (Thumb.finished - 2 * (count % 40))
        ∧ (mainEnv P d codeBase).addrOf Thumb.tailStart
          ≤ Thumb.jumpTarget (mainEnv P d codeBase) (count % 40)
        ∧ Thumb.jumpTarget (mainEnv P d codeBase) (count % 40)
          ≤ (mainEnv P d codeBase).addrOf Thumb.finished)
    ∧ Thumb.stepN (mainEnv P d codeBase) (2 + 83 * (count / 40) + 5)
          (mainStart P d count value)
        = some ⟨Thumb.finished - 2 * (count % 40), 4 * (count % 40),
            Thumb.jumpTarget (mainEnv P d codeBase) (count % 40) + 1, false,
            (mainStart P d count value).out
              ++ (mainEnv P d codeBase).pulses (40 * (count / 40))⟩
    ∧ (Thumb.tailStart = Thumb.lastlot + 5
        ∧ Thumb.finished = Thumb.tailStart + 2 * 39
        ∧ Thumb.tailStart ≤ Thumb.finished - 2 * (count % 40)
        ∧ Thumb.finished - 2 * (count % 40) ≤ Thumb.finished
        ∧ (Thumb.finished - 2 * (count % 40) - Thumb.tailStart) % 2 = 0
        ∧ (Thumb.finished - (Thumb.finished - 2 * (count % 40))) / 2 = count % 40
        ∧ (0 < count % 40 →
            Thumb.mainBlock[Thumb.finished - 2 * (count % 40)]?
              = some (Thumb.Instr.str_wr Thumb.AddrOperand.creset)))
    ∧ Thumb.stepN (mainEnv P d codeBase) (2 + 83 * (count / 40) + 5 + 2 * (count % 40))
          (mainStart P d count value)
        = some ⟨Thumb.finished, 4 * (count % 40),
            Thumb.jumpTarget (mainEnv P d codeBase) (count % 40) + 1, false,
            (mainStart P d count value).out
              ++ (mainEnv P d codeBase).pulses (40 * (count / 40))
              ++ (mainEnv P d codeBase).pulses (count % 40)⟩
    ∧ Thumb.run (mainEnv P d codeBase) (writeMultiDataSteps count) (mainStart P d count value)
        = Thumb.stepN (mainEnv P d codeBase) (2 + 83 * (count / 40) + 5 + 2 * (count % 40))
            (mainStart P d count value) := by
  have hr : count % 40 < 40 := Nat.mod_lt _ (by decide)
  have hfin : Thumb.finished = 168 := rfl
  have hts : Thumb.tailStart = 90 := rfl
  have hmod : count % 2 ^ 32 = count := Nat.mod_eq_of_lt hcount
  have hs0 : mainStart P d count value
      = ⟨0, count, d._jump % 2 ^ 32, false,
          [ Event.store d._portOutputRegister (value % 2 ^ 16),
            Event.store d._controlSetAddress P.Pin_RS ]⟩ := by
    simp only [mainStart, hmod]
  have henv : (mainEnv P d codeBase).codeBase = codeBase := rfl
  have haddr : ∀ i, (mainEnv P d codeBase).addrOf i = codeBase + 2 * i := fun _ => rfl
  have hreach := Thumb.stepN_reach_lastlot (mainEnv P d codeBase) count (d._jump % 2 ^ 32) false
    [ Event.store d._portOutputRegister (value % 2 ^ 16),
      Event.store d._controlSetAddress P.Pin_RS ] hcount
  have hdisp := Thumb.stepN_dispatch (mainEnv P d codeBase) hcb hfit (count % 40)
    (d._jump % 2 ^ 32) false
    ([ Event.store d._portOutputRegister (value % 2 ^ 16),
       Event.store d._controlSetAddress P.Pin_RS ]
      ++ (mainEnv P d codeBase).pulses (40 * (count / 40))) hr
  have h4 := Thumb.stepN_add hreach 4
  have h5 := Thumb.stepN_add hreach 5
  rw [hdisp.2.2.2.1] at h4
  rw [hdisp.2.2.2.2] at h5
  have htail := Thumb.stepN_tail (mainEnv P d codeBase) (count % 40) (4 * (count % 40))
    ((mainEnv P d codeBase).addrOf Thumb.finished - 4 * (count % 40) + 1) false
    ([ Event.store d._portOutputRegister (value % 2 ^ 16),
       Event.store d._controlSetAddress P.Pin_RS ]
      ++ (mainEnv P d codeBase).pulses (40 * (count / 40))) hr
  have hend := Thumb.stepN_add h5 (2 * (count % 40))
  rw [htail] at hend
  have hland := Thumb.landing_on_pair (count % 40) hr
  refine ⟨fun _ => rfl, ?_⟩
  rw [hs0]
  have hrun := Thumb.run_mainBlock (mainEnv P d codeBase) hcb hfit count (d._jump % 2 ^ 32) false
    [ Event.store d._portOutputRegister (value % 2 ^ 16),
      Event.store d._controlSetAddress P.Pin_RS ] hcount (writeMultiDataSteps count)
    (by simp only [writeMultiDataSteps, hmod]; exact Nat.le_refl _)
  have hjump : (mainEnv P d codeBase).codeBase + 2 * (Thumb.finished - 2 * (count % 40)) + 1
      = (mainEnv P d codeBase).addrOf Thumb.finished - 4 * (count % 40) + 1 := by
    simp only [haddr, henv, hfin]; omega
  have hsplit : (mainEnv P d codeBase).pulses count
      = (mainEnv P d codeBase).pulses (40 * (count / 40))
          ++ (mainEnv P d codeBase).pulses (count % 40) := by
    have hc : 40 * (count / 40) + count % 40 = count := by omega
    rw [← Thumb.Env.pulses_add, hc]
  have hlink : Thumb.run (mainEnv P d codeBase) (writeMultiDataSteps count)
      ⟨0, count, d._jump % 2 ^ 32, false,
        [ Event.store d._portOutputRegister (value % 2 ^ 16),
          Event.store d._controlSetAddress P.Pin_RS ]⟩
      = Thumb.stepN (mainEnv P d codeBase) (2 + 83 * (count / 40) + 5 + 2 * (count % 40))
          ⟨0, count, d._jump % 2 ^ 32, false,
            [ Event.store d._portOutputRegister (value % 2 ^ 16),
              Event.store d._controlSetAddress P.Pin_RS ]⟩ := by
    rw [hrun, hend, hjump, hsplit, List.append_assoc]
  refine ⟨⟨by omega, by omega⟩, ?_, ?_, hreach, ?_, h4, ?_, h5, ?_, hend, hlink⟩
  · intro i hi
    exact Thumb.stepN_pass_start (mainEnv P d codeBase) count _ _ _ hcount i hi
  · intro i m hi hm
    have hstart := Thumb.stepN_pass_start (mainEnv P d codeBase) count (d._jump % 2 ^ 32) false
      [ Event.store d._portOutputRegister (value % 2 ^ 16),
        Event.store d._controlSetAddress P.Pin_RS ] hcount i hi
    rw [Thumb.stepN_add hstart m]
    exact Thumb.stepN_batch_pc (mainEnv P d codeBase) _ _ _ _ m hm
  · simp only [Thumb.jumpTarget, haddr, hfin]
    rw [hfin] at hfit
    refine ⟨by omega, by omega, by omega⟩
  · simp only [Thumb.jumpTarget, haddr, hfin, hts]
    refine ⟨by omega, by omega, by omega, by omega⟩
  · exact ⟨rfl, rfl, hland.1, hland.2.1, hland.2.2.1, hland.2.2.2.1, hland.2.2.2.2⟩

/-- Witness of C13 at `count = 81`: two passes, one remaining pulse, landing on
the last toggle pair of the tail. -/
theorem writeMultiData_remainder_dispatch_witness :
    (exampleCodeBase % 2 = 0 ∧ exampleCodeBase + 2 * Thumb.finished < 2 ^ 32 ∧ 81 < 2 ^ 32)
    ∧ Thumb.stepN (mainEnv examplePackage exampleDriver exampleCodeBase) (2 + 83 * (81 / 40) + 5)
          (mainStart examplePackage exampleDriver 81 0xF800)
        = some ⟨Thumb.finished - 2 * (81 % 40), 4 * (81 % 40),
            Thumb.jumpTarget (mainEnv examplePackage exampleDriver exampleCodeBase) (81 % 40) + 1,
            false,
            (mainStart examplePackage exampleDriver 81 0xF800).out
              ++ (mainEnv examplePackage exampleDriver exampleCodeBase).pulses (40 * (81 / 40))⟩
    ∧ Thumb.jumpTarget (mainEnv examplePackage exampleDriver exampleCodeBase) (81 % 40)
        = 0x08000100 + 2 * 166 :=
  ⟨⟨by decide, by decide, by decide⟩,
   (writeMultiData_remainder_dispatch examplePackage exampleDriver exampleCodeBase 81 0xF800
      (by decide) (by decide) (by decide)).2.2.2.2.2.2.2.2.1,
   by decide⟩

end Gpio16BitAccessMode

end Stm32plus
